import Mathlib

/-!
Verification development for the claudecat ingestion and caching pipeline.

The definitions below are a shallow embedding of the Go sources:

* `fileio/usage_loader.go` — `LoadUsageEntries`, `processSingleFileWithCacheAndDedup`,
  `processSingleFileWithDedup` and their helpers;
* the orchestrator's `DataManager` — `GetData` (steady-state watch retry loop),
  `analyzeUsageWatchMode`, `processUsageData`, `updateSessionWindowFiles`,
  `isLimitInBlockTimerange`.

Leaves of the pipeline that live outside the provided sources (JSON decoding,
`extractUsageEntry`, `hasAssistantMessages`, the `cache.FileSummary` store, file
discovery, pricing tables, the session analyzer) are modelled from the spec, as
noted on each definition.  Machine-level details that the verified claims do not
touch (real durations, float costs) are modelled with natural numbers.
-/

namespace ClaudeCat

/-- One parsed billable event (`models.UsageEntry`): timestamp, model name,
message/request identifiers, token count, computed cost and the project derived
from the file path.  Timestamps are modelled as naturals, costs as naturals. -/
structure UsageEntry where
  timestamp : Nat
  model : String
  messageID : String
  requestID : String
  tokens : Nat
  costUSD : Nat
  project : String
deriving DecidableEq, Repr

/-- Modelled from the spec: `cache.FileSummary` — cached synopsis for one file,
keyed by absolute path and stamped with the file's modification time and size;
either flagged as having no billable content or carrying the derived entries
themselves, so that a cache hit reconstructs byte-identical entries (spec §3,
§8) — message/request identifiers included. -/
structure FileSummary where
  path : String
  modTime : Nat
  fileSize : Nat
  hasNoAssistantMessages : Bool
  entryData : List UsageEntry
deriving DecidableEq, Repr

/-- One line of a JSONL log file.  JSON decoding (`sonic.Unmarshal`) and
`extractUsageEntry` are outside the provided sources, so a line is given to
the model already classified: blank, invalid JSON, or a decoded record with
an opaque raw-object tag and the optional usage entry extracted from it. -/
inductive LogLine where
  | blank : LogLine
  | invalid : LogLine
  | record (raw : Nat) (usage : Option UsageEntry) : LogLine
deriving DecidableEq, Repr

/-- One discovered JSONL file together with the filesystem behaviour the Go
code observes for it: the `os.Stat` result (modification time and size, or
failure), whether `os.Open` succeeds, the classified lines, whether the
scanner reports an error after the lines, and the result of the
`hasAssistantMessages` pre-check (a helper outside the provided sources,
modelled from the spec as an oracle input). -/
structure FileData where
  path : String
  statInfo : Option (Nat × Nat)
  openOk : Bool
  lines : List LogLine
  scanErr : Bool
  hasAssistant : Bool
deriving DecidableEq, Repr

/-- The two I/O-level per-file failures of `processSingleFileWithDedup`:
the file cannot be opened, or the scanner reports an error. -/
inductive PErr where
  | openFailed : PErr
  | scanError : PErr
deriving DecidableEq, Repr

/-- Modelled from the spec: the pluggable summary store (§6), as a partial map
from absolute paths to summaries; `get` reports not-found as `none`. -/
abbrev Store : Type := String → Option FileSummary

/-- Modelled from the spec: `InvalidateFileSummary` removes the stored summary,
so a subsequent get reports not-found.  A failing invalidation is not
modelled. -/
def storeInvalidate (st : Store) (p : String) : Store :=
  fun q => if q = p then none else st q

/-- Lookup through an optional store (no store configured means no summary). -/
def storeLook (ost : Option Store) (p : String) : Option FileSummary :=
  match ost with
  | none => none
  | some st => st p

/-- The deduplication seen-key set, created fresh per load cycle. -/
abbrev DSet : Type := List String

/-- A pricing provider (`models.PricingProvider`): pricing by model name, or an
error.  Pricing values are modelled as naturals. -/
abbrev PProv : Type := String → Except Unit Nat

/-- Modelled from the spec: the built-in default pricing table
(`models.GetPricing`), abstracted to a constant unit rate. -/
def defaultPricing (_ : String) : Nat := 1

/-- Modelled from the spec: `CalculateCost` — cost from token count and
pricing. -/
def calculateCost (tokens pricing : Nat) : Nat := tokens * pricing

/-- Modelled from the spec: `NormalizeModel` maps a model name to a canonical
form; the canonicalization itself is irrelevant to the claims and is taken to
be the identity. -/
def normalizeModel (m : String) : String := m

/-- Modelled from the spec: the project name derived from the file's path
(`extractProjectFromPath`), taken to be the path itself. -/
def extractProjectFromPath (p : String) : String := p

/-- The loader options (`LoadUsageEntriesOptions`) relevant to the model.  The
cutoff time stands for `now - HoursBack` (`nil` hours-back means no cutoff);
the cache store is passed alongside rather than inside the record. -/
structure LoadOpts where
  cutoff : Option Nat
  includeRaw : Bool
  enableDedup : Bool
  pricing : Option PProv

/-- Whether an entry survives the cutoff filter: the Go code skips entries
whose timestamp is strictly before the cutoff. -/
def keepCutoff (cutoff : Option Nat) (t : Nat) : Bool :=
  match cutoff with
  | none => true
  | some c => !(t < c)

/-- Whether an entry participates in deduplication: both IDs non-empty. -/
def keyedB (e : UsageEntry) : Bool :=
  e.messageID != "" && e.requestID != ""

/-- The deduplication key `messageID + ":" + requestID`. -/
def dedupKey (e : UsageEntry) : String :=
  e.messageID ++ ":" ++ e.requestID

/-- The per-entry finishing steps of the parse loop: cost calculation
(provider first, default table on provider error or absence), model
normalization, and project extraction from the file path. -/
def finishEntry (pp : Option PProv) (path : String) (e : UsageEntry) : UsageEntry :=
  let pricing :=
    match pp with
    | some prov =>
      match prov e.model with
      | .ok p => p
      | .error _ => defaultPricing e.model
    | none => defaultPricing e.model
  { e with costUSD := calculateCost e.tokens pricing
           model := normalizeModel e.model
           project := extractProjectFromPath path }

@[simp] theorem finishEntry_messageID (pp : Option PProv) (path : String) (e : UsageEntry) :
    (finishEntry pp path e).messageID = e.messageID := rfl

@[simp] theorem finishEntry_requestID (pp : Option PProv) (path : String) (e : UsageEntry) :
    (finishEntry pp path e).requestID = e.requestID := rfl

@[simp] theorem finishEntry_timestamp (pp : Option PProv) (path : String) (e : UsageEntry) :
    (finishEntry pp path e).timestamp = e.timestamp := rfl

@[simp] theorem keyedB_finishEntry (pp : Option PProv) (path : String) (e : UsageEntry) :
    keyedB (finishEntry pp path e) = keyedB e := rfl

@[simp] theorem dedupKey_finishEntry (pp : Option PProv) (path : String) (e : UsageEntry) :
    dedupKey (finishEntry pp path e) = dedupKey e := rfl

/-- The scan loop of `processSingleFileWithDedup`: per line, skip blanks and
invalid JSON, retain the raw object when requested, extract the usage entry,
apply the cutoff filter, apply deduplication when a seen-key set is supplied
and both IDs are non-empty (drop if seen, otherwise mark), then finish the
entry (cost, normalization, project).  Returns the entries, the retained raw
tags, and the (possibly grown) seen-key set. -/
def procLines (cutoff : Option Nat) (includeRaw : Bool) (pp : Option PProv) (path : String) :
    List LogLine → Option DSet → List UsageEntry × List Nat × Option DSet
  | [], d => ([], [], d)
  | .blank :: ls, d => procLines cutoff includeRaw pp path ls d
  | .invalid :: ls, d => procLines cutoff includeRaw pp path ls d
  | .record raw usage :: ls, d =>
    let rawPart : List Nat := if includeRaw then [raw] else []
    match usage with
    | none =>
      let r := procLines cutoff includeRaw pp path ls d
      (r.1, rawPart ++ r.2.1, r.2.2)
    | some e =>
      if keepCutoff cutoff e.timestamp = false then
        let r := procLines cutoff includeRaw pp path ls d
        (r.1, rawPart ++ r.2.1, r.2.2)
      else
        match d with
        | some s =>
          if keyedB e then
            if dedupKey e ∈ s then
              let r := procLines cutoff includeRaw pp path ls (some s)
              (r.1, rawPart ++ r.2.1, r.2.2)
            else
              let r := procLines cutoff includeRaw pp path ls (some (dedupKey e :: s))
              (finishEntry pp path e :: r.1, rawPart ++ r.2.1, r.2.2)
          else
            let r := procLines cutoff includeRaw pp path ls (some s)
            (finishEntry pp path e :: r.1, rawPart ++ r.2.1, r.2.2)
        | none =>
          let r := procLines cutoff includeRaw pp path ls none
          (finishEntry pp path e :: r.1, rawPart ++ r.2.1, r.2.2)

/-- `processSingleFileWithDedup`: open the file (failure is an error with nil
results), run the scan loop, and report a scanner error as an error with nil
results — in both error cases the already-accumulated entries are discarded,
but mutations of the shared seen-key set persist. -/
def processSingleFileWithDedup (cutoff : Option Nat) (includeRaw : Bool) (pp : Option PProv)
    (d : Option DSet) (fd : FileData) :
    (List UsageEntry × List Nat × Option PErr) × Option DSet :=
  if fd.openOk = false then
    (([], [], some .openFailed), d)
  else
    let r := procLines cutoff includeRaw pp fd.path fd.lines d
    if fd.scanErr then (([], [], some .scanError), r.2.2)
    else ((r.1, r.2.1, none), r.2.2)

/-- The merge-time first-seen-wins deduplication filter: keep entries missing
either ID, drop keyed entries whose key is already seen, mark kept keys. -/
def filterSeen (s : DSet) : List UsageEntry → List UsageEntry × DSet
  | [] => ([], s)
  | e :: es =>
    if keyedB e then
      if dedupKey e ∈ s then filterSeen s es
      else
        let r := filterSeen (dedupKey e :: s) es
        (e :: r.1, r.2)
    else
      let r := filterSeen s es
      (e :: r.1, r.2)

/-- Timestamp order used by the final sort. -/
def tsLe (a b : UsageEntry) : Prop := a.timestamp ≤ b.timestamp

instance : DecidableRel tsLe := fun a b => Nat.decLe a.timestamp b.timestamp

/-- Insertion step of the timestamp sort. -/
def insertTs (e : UsageEntry) : List UsageEntry → List UsageEntry
  | [] => [e]
  | x :: xs => if e.timestamp ≤ x.timestamp then e :: x :: xs else x :: insertTs e xs

/-- The final `sort.Slice` of `LoadUsageEntries`, sorting the merged entry list
by timestamp (modelled as an insertion sort; `sort.Slice` guarantees only the
ordering, which is all the load's contract states). -/
def sortByTimestamp (l : List UsageEntry) : List UsageEntry :=
  l.foldr insertTs []

theorem mem_insertTs {a e : UsageEntry} :
    ∀ {l : List UsageEntry}, a ∈ insertTs e l ↔ a = e ∨ a ∈ l
  | [] => by simp [insertTs]
  | x :: xs => by
    simp only [insertTs]
    split
    · simp
    · rw [List.mem_cons, @mem_insertTs _ _ xs, List.mem_cons]
      tauto

theorem pairwise_insertTs {e : UsageEntry} :
    ∀ {l : List UsageEntry}, l.Pairwise tsLe → (insertTs e l).Pairwise tsLe
  | [], _ => by simp [insertTs]
  | x :: xs, h => by
    rcases List.pairwise_cons.mp h with ⟨hx, hxs⟩
    simp only [insertTs]
    split
    next hle =>
      refine List.pairwise_cons.mpr ⟨?_, h⟩
      intro a ha
      rcases List.mem_cons.mp ha with rfl | ha
      · exact hle
      · exact Nat.le_trans hle (hx a ha)
    next hle =>
      refine List.pairwise_cons.mpr ⟨?_, pairwise_insertTs hxs⟩
      intro a ha
      rcases mem_insertTs.mp ha with rfl | ha
      · exact Nat.le_of_not_le hle
      · exact hx a ha

theorem pairwise_sortByTimestamp (l : List UsageEntry) :
    (sortByTimestamp l).Pairwise tsLe := by
  induction l with
  | nil => simp [sortByTimestamp]
  | cons x xs ih => exact pairwise_insertTs ih

/-- Per-file result record (mirrors the tuple returned by
`processSingleFileWithCacheAndDedup`): entries, raw tags, cache-hit flag, miss
reason, error, and the summary produced for later batch writing. -/
structure FPR where
  entries : List UsageEntry
  raws : List Nat
  fromCache : Bool
  missReason : String
  error : Option PErr
  summary : Option FileSummary
deriving DecidableEq, Repr

/-- Validity stamp check of a cached summary (`FileSummary.IsExpired`,
modelled from the spec): expired iff the stored modification time and size no
longer both match the file's current values. -/
def FileSummary.isExpired (s : FileSummary) (mt sz : Nat) : Bool :=
  !(s.modTime == mt && s.fileSize == sz)

/-- Modelled from the spec: `createEntriesFromSummary` reconstructs the
entries recorded in a summary byte-identically (spec §3, §8 — identifiers
included), applying only the cutoff filter. -/
def createEntriesFromSummary (s : FileSummary) (cutoff : Option Nat) : List UsageEntry :=
  s.entryData.filter (fun se => keepCutoff cutoff se.timestamp)

/-- Modelled from the spec: `createSummaryFromEntries` builds a summary from
the produced entries and the file's stat info; the entries are stored as
derived, identifiers included. -/
def createSummaryFromEntries (absPath : String) (es : List UsageEntry)
    (info : Nat × Nat) : FileSummary :=
  { path := absPath, modTime := info.1, fileSize := info.2
    hasNoAssistantMessages := false, entryData := es }

/-- Modelled from the spec: `createEmptySummaryForFile` builds the cached
"no billable content" marker for a file. -/
def createEmptySummaryForFile (fd : FileData) : FileSummary :=
  { path := fd.path, modTime := (fd.statInfo.getD (0, 0)).1
    fileSize := (fd.statInfo.getD (0, 0)).2
    hasNoAssistantMessages := true, entryData := [] }

/-- Continuation of `processSingleFileWithCacheAndDedup` after the cache
lookup found nothing usable (store configured, stat succeeded): check the
billable-content pre-check, classify the miss by re-querying the store
(not-found means `new_file`, found means `modified_file`), run the full parse
and, on success with at least one entry, build a summary to persist. -/
def processAfterCache (opts : LoadOpts) (st : Store) (d : Option DSet) (fd : FileData) :
    FPR × Option Store × Option DSet :=
  if fd.hasAssistant = false then
    (⟨[], [], false, "no_assistant_messages", none, some (createEmptySummaryForFile fd)⟩,
      some st, d)
  else
    let missReason := match st fd.path with
      | none => "new_file"
      | some _ => "modified_file"
    let pr := processSingleFileWithDedup opts.cutoff opts.includeRaw opts.pricing d fd
    let summary :=
      if pr.1.2.2.isSome then none
      else if pr.1.1.isEmpty then none
      else match fd.statInfo with
        | some info => some (createSummaryFromEntries fd.path pr.1.1 info)
        | none => none
    (⟨pr.1.1, pr.1.2.1, false, missReason, pr.1.2.2, summary⟩, some st, pr.2)

/-- `processSingleFileWithCacheAndDedup`: with a store configured, stat the
file (stat failure falls back to uncached processing with a nil seen-key set,
classified `new_file`); consult the store, serve valid summaries as cache
hits (empty results for the no-billable-content marker, reconstructed entries
otherwise), invalidate stale summaries and fall through; without a store,
parse directly with miss reason `other`.  The absolute path is modelled as
the path itself.  Returns the per-file result, the possibly-updated store,
and the threaded seen-key set. -/
def processSingleFileWithCacheAndDedup (opts : LoadOpts) (store : Option Store)
    (d : Option DSet) (fd : FileData) : FPR × Option Store × Option DSet :=
  match store with
  | some st =>
    match fd.statInfo with
    | none =>
      let pr := processSingleFileWithDedup opts.cutoff opts.includeRaw opts.pricing none fd
      (⟨pr.1.1, pr.1.2.1, false, "new_file", pr.1.2.2, none⟩, some st, d)
    | some (mt, sz) =>
      match st fd.path with
      | some cs =>
        if cs.isExpired mt sz then
          processAfterCache opts (storeInvalidate st fd.path) d fd
        else if cs.hasNoAssistantMessages then
          (⟨[], [], true, "", none, none⟩, some st, d)
        else
          (⟨createEntriesFromSummary cs opts.cutoff, [], true, "", none, none⟩, some st, d)
      | none => processAfterCache opts st d fd
  | none =>
    let pr := processSingleFileWithDedup opts.cutoff opts.includeRaw opts.pricing d fd
    (⟨pr.1.1, pr.1.2.1, false, "other", pr.1.2.2, none⟩, none, pr.2)

/-- Accumulated observables of one load (pre-sort): merged entries, raw tags,
per-file processing errors, cache hit/miss counters, the miss-reason
histogram, and the summaries collected for batch writing. -/
structure CoreOut where
  entries : List UsageEntry
  raws : List Nat
  errors : List (String × PErr)
  hits : Nat
  misses : Nat
  missNew : Nat
  missModified : Nat
  missNoAssistant : Nat
  missOther : Nat
  summaries : List FileSummary
deriving DecidableEq, Repr

def CoreOut.empty : CoreOut := ⟨[], [], [], 0, 0, 0, 0, 0, 0, []⟩

/-- The sequential branch of `LoadUsageEntries` (file count at most 10): one
pass over the files threading the store and the seen-key set; a failing file
contributes only its error, a successful one contributes entries, raw tags
(when requested), hit/miss accounting and its summary. -/
def seqGo (opts : LoadOpts) : Option Store → Option DSet → List FileData → CoreOut
  | _, _, [] => CoreOut.empty
  | st, d, fd :: fs =>
    let step := processSingleFileWithCacheAndDedup opts st d fd
    let r := step.1
    let rest := seqGo opts step.2.1 step.2.2 fs
    match r.error with
    | some e => { rest with errors := (fd.path, e) :: rest.errors }
    | none =>
      { rest with
        entries := r.entries ++ rest.entries
        raws := (if opts.includeRaw then r.raws else []) ++ rest.raws
        hits := (if r.fromCache then 1 else 0) + rest.hits
        misses := (if r.fromCache then 0 else 1) + rest.misses
        missNew := (if !r.fromCache && r.missReason == "new_file" then 1 else 0) + rest.missNew
        missModified :=
          (if !r.fromCache && r.missReason == "modified_file" then 1 else 0) + rest.missModified
        missNoAssistant :=
          (if !r.fromCache && r.missReason == "no_assistant_messages" then 1 else 0)
            + rest.missNoAssistant
        missOther := (if !r.fromCache && r.missReason == "other" then 1 else 0) + rest.missOther
        summaries := (match r.summary with | some s => [s] | none => []) ++ rest.summaries }

/-- Modelled from the spec (§4.3): the concurrent loader's per-file results —
each file is processed by the same cache-aware logic with a nil seen-key set
against the store as it was when the load began, and the results keep
file-discovery order. -/
def concResults (opts : LoadOpts) (st0 : Option Store) (files : List FileData) :
    List (String × FPR) :=
  files.map (fun fd => (fd.path, (processSingleFileWithCacheAndDedup opts st0 none fd).1))

/-- Modelled from the spec (§4.3): `MergeResults` / `MergeResultsWithDedup` —
iterate per-file results in order, accumulate errors, and concatenate entries
and raw tags, re-applying the first-seen-wins key filter across all files'
entries when deduplication is enabled. -/
def mergeGo (includeRaw : Bool) : Option DSet → List (String × FPR) →
    List UsageEntry × List Nat × List (String × PErr)
  | _, [] => ([], [], [])
  | d, (p, r) :: rs =>
    match r.error with
    | some e =>
      let rest := mergeGo includeRaw d rs
      (rest.1, rest.2.1, (p, e) :: rest.2.2)
    | none =>
      match d with
      | none =>
        let rest := mergeGo includeRaw none rs
        (r.entries ++ rest.1, (if includeRaw then r.raws else []) ++ rest.2.1, rest.2.2)
      | some s =>
        let f := filterSeen s r.entries
        let rest := mergeGo includeRaw (some f.2) rs
        (f.1 ++ rest.1, (if includeRaw then r.raws else []) ++ rest.2.1, rest.2.2)

/-- The post-merge accounting pass of the concurrent branch (`LoadUsageEntries`
lines 129–144): hit/miss counters, miss-reason histogram and summary
collection over the per-file results, skipping failed files. -/
def concStats : List (String × FPR) → CoreOut
  | [] => CoreOut.empty
  | (_, r) :: rs =>
    let rest := concStats rs
    match r.error with
    | some _ => rest
    | none =>
      { rest with
        hits := (if r.fromCache then 1 else 0) + rest.hits
        misses := (if r.fromCache then 0 else 1) + rest.misses
        missNew := (if !r.fromCache && r.missReason == "new_file" then 1 else 0) + rest.missNew
        missModified :=
          (if !r.fromCache && r.missReason == "modified_file" then 1 else 0) + rest.missModified
        missNoAssistant :=
          (if !r.fromCache && r.missReason == "no_assistant_messages" then 1 else 0)
            + rest.missNoAssistant
        missOther := (if !r.fromCache && r.missReason == "other" then 1 else 0) + rest.missOther
        summaries := (match r.summary with | some s => [s] | none => []) ++ rest.summaries }

/-- The concurrent branch of `LoadUsageEntries` (file count above 10):
per-file results from the worker pool, merged in file order with optional
merge-time deduplication, followed by the accounting pass. -/
def concLoadCore (opts : LoadOpts) (st0 : Option Store) (files : List FileData) : CoreOut :=
  let rs := concResults opts st0 files
  let m := mergeGo opts.includeRaw (if opts.enableDedup then some [] else none) rs
  let stats := concStats rs
  { stats with entries := m.1, raws := m.2.1, errors := m.2.2 }

/-- The sequential branch entry point: fresh (empty) seen-key set when
deduplication is enabled, none otherwise. -/
def seqLoadCore (opts : LoadOpts) (st : Option Store) (files : List FileData) : CoreOut :=
  seqGo opts st (if opts.enableDedup then some [] else none) files

/-- The observable result of `LoadUsageEntries`: sorted entries, raw tags,
errors, cache statistics, and the batch of summaries written back to the
store at the end of the load (`writes`, the `BatchSet` payload — empty when
nothing is written). -/
structure LoadResult where
  entries : List UsageEntry
  raws : List Nat
  errors : List (String × PErr)
  hits : Nat
  misses : Nat
  missNew : Nat
  missModified : Nat
  missNoAssistant : Nat
  missOther : Nat
  filesProcessed : Nat
  writes : List FileSummary
deriving DecidableEq, Repr

/-- `LoadUsageEntries`: discovery is an input (the file list); choose the
concurrent branch above 10 files, the sequential branch otherwise; sort the
merged entries by timestamp; batch-write the collected summaries when a store
is configured and there is something to write. -/
def loadUsageEntries (opts : LoadOpts) (store : Option Store) (files : List FileData) :
    LoadResult :=
  let core := if files.length > 10 then concLoadCore opts store files
              else seqLoadCore opts store files
  let writes := if !core.summaries.isEmpty && store.isSome then core.summaries else []
  { entries := sortByTimestamp core.entries, raws := core.raws, errors := core.errors
    hits := core.hits, misses := core.misses, missNew := core.missNew
    missModified := core.missModified, missNoAssistant := core.missNoAssistant
    missOther := core.missOther, filesProcessed := files.length, writes := writes }

/-- A session block (`models.SessionBlock`) as the session-window logic and
limit attachment see it: start/end times (integers, in minutes), the active
flag, and attached limit-message timestamps. -/
structure SessionBlock where
  startTime : Int
  endTime : Int
  isActive : Bool
  limitMessages : List Int
deriving DecidableEq, Repr

/-- `DataManager.isLimitInBlockTimerange`: a limit timestamp is in a block's
range iff it is at-or-after the start and at-or-before the end. -/
def isLimitInBlockTimerange (lt : Int) (b : SessionBlock) : Bool :=
  (b.startTime ≤ lt) && (lt ≤ b.endTime)

/-- The analysis result published by the Data Manager: blocks plus the
metadata counters the claims mention. -/
structure AnalysisResult where
  blocks : List SessionBlock
  entriesProcessed : Nat
  blocksCreated : Nat
  limitsDetected : Nat
deriving DecidableEq, Repr

/-- `DataManager.processUsageData`: an empty entry list is fatal for the load
attempt; otherwise transform entries to blocks (the external session
analyzer is a parameter), detect limits from the raw records (also a
parameter) and attach each limit to the blocks whose time range contains
it. -/
def processUsageData (transform : List UsageEntry → List SessionBlock)
    (detect : List Nat → List Int) (lr : LoadResult) : Except String AnalysisResult :=
  if lr.entries.isEmpty then .error "no usage entries found"
  else
    let blocks := transform lr.entries
    let limits := detect lr.raws
    let blocks' := blocks.map (fun b =>
      { b with limitMessages := limits.filter (fun lt => isLimitInBlockTimerange lt b) })
    .ok { blocks := blocks', entriesProcessed := lr.entries.length
          blocksCreated := blocks.length, limitsDetected := limits.length }

/-- `DataManager.analyzeUsageWatchMode`: the steady-state forced-refresh load
— build the load options (raw output on, the manager's dedup flag and
pricing provider, and the manager's summary store when configured), run the
full load, and process it.  Returns the analysis outcome together with the
batch of summaries the load wrote to the store. -/
def analyzeUsageWatchMode (transform : List UsageEntry → List SessionBlock)
    (detect : List Nat → List Int) (cutoff : Option Nat) (dedup : Bool)
    (pp : Option PProv) (store : Option Store) (files : List FileData) :
    Except String AnalysisResult × List FileSummary :=
  let opts : LoadOpts :=
    { cutoff := cutoff, includeRaw := true, enableDedup := dedup, pricing := pp }
  let lr := loadUsageEntries opts store files
  (processUsageData transform detect lr, lr.writes)

/-- The steady-state forced-refresh retry loop of `DataManager.GetData`
(attempt outcomes are an oracle `o`; `cache` is the last published result):
on failure of a non-final attempt sleep `100 * 2^attempt` milliseconds and
retry; after the final failure fall back to the cached result when one
exists, otherwise surface an error; on success publish the fresh result.
Returns the call's outcome, the backoff delays slept, and the published
cache afterwards. -/
def watchGo {R : Type} (o : Nat → Except String R) (cache : Option R)
    (maxRetries : Nat) (attempt : Nat) (delays : List Nat) :
    Except String R × List Nat × Option R :=
  if _h : attempt < maxRetries then
    match o attempt with
    | .ok d => (.ok d, delays.reverse, some d)
    | .error e =>
      if attempt < maxRetries - 1 then
        watchGo o cache maxRetries (attempt + 1) ((100 * 2 ^ attempt) :: delays)
      else
        match cache with
        | some c => (.ok c, delays.reverse, some c)
        | none =>
          (.error ("failed to get usage data after " ++ toString maxRetries
              ++ " attempts: " ++ e), delays.reverse, none)
  else (.error "unexpected error in data fetching loop", delays.reverse, cache)
termination_by maxRetries - attempt
decreasing_by omega

/-- `GetData(true)` in the steady state: three attempts starting at zero with
no delays slept yet. -/
def getDataWatch {R : Type} (o : Nat → Except String R) (cache : Option R) :
    Except String R × List Nat × Option R :=
  watchGo o cache 3 0 []

/-- Per-path bookkeeping of the session-window tracker (`FileTracker`). -/
structure FileTracker where
  path : String
  lastModTime : Int
  lastCacheUpdate : Int
  inSessionWindow : Bool
deriving DecidableEq, Repr

/-- Marking step of `updateSessionWindowFiles`: set an existing tracker's
in-window flag and refresh its known modification time, or add a fresh
in-window tracker for an unseen path (the Go tracker collection is a map
keyed by path; the assoc-list update models the map assignment). -/
def markFile : List (String × FileTracker) → String → Int → List (String × FileTracker)
  | [], p, mt => [(p, { path := p, lastModTime := mt, lastCacheUpdate := 0
                        inSessionWindow := true })]
  | pt :: rest, p, mt =>
    if pt.1 == p then
      (pt.1, { pt.2 with inSessionWindow := true, lastModTime := mt }) :: rest
    else pt :: markFile rest p mt

/-- A block counts as active for the session-window scan iff its active flag
is set or it ended less than five hours (300 minutes) ago. -/
def blockActive (now : Int) (b : SessionBlock) : Bool :=
  b.isActive || now - b.endTime < 300

/-- The per-block window test of the scan: the file's modification time is
strictly after the block start and strictly before the block end plus the
30-minute buffer (`ModTime().After(start) && ModTime().Before(end.Add(30min))`). -/
def inWindowB (mt : Int) (b : SessionBlock) : Bool :=
  decide (b.startTime < mt) && decide (mt < b.endTime + 30)

/-- One iteration of the file scan: skip files whose stat failed, mark a file
whose modification time is inside some active block's buffered window. -/
def markStep (activeBlocks : List SessionBlock) (acc : List (String × FileTracker))
    (pf : String × Option Int) : List (String × FileTracker) :=
  match pf.2 with
  | none => acc
  | some mt => if activeBlocks.any (inWindowB mt) then markFile acc pf.1 mt else acc

/-- `DataManager.updateSessionWindowFiles` (times in minutes): collect the
active blocks, reset every tracked file's in-window flag, then walk the
discovered files marking those inside some active block's buffered window. -/
def updateSessionWindowFiles (now : Int) (blocks : List SessionBlock)
    (tracked : List (String × FileTracker)) (files : List (String × Option Int)) :
    List (String × FileTracker) :=
  let activeBlocks := blocks.filter (blockActive now)
  let base := tracked.map (fun pt => (pt.1, { pt.2 with inSessionWindow := false }))
  files.foldl (markStep activeBlocks) base

/-- Whether the tracker map currently marks a path as inside the session
window. -/
def isMarked (l : List (String × FileTracker)) (p : String) : Bool :=
  match l.find? (fun pt => pt.1 == p) with
  | some pt => pt.2.inSessionWindow
  | none => false

/-! ### Properties of the first-seen-wins filter -/

theorem fs_mono {k : String} :
    ∀ (l : List UsageEntry) (s : DSet), k ∈ s → k ∈ (filterSeen s l).2
  | [], _, h => h
  | e :: es, s, h => by
    simp only [filterSeen]
    split
    · split
      · exact fs_mono es s h
      · simpa using fs_mono es (dedupKey e :: s) (List.mem_cons_of_mem _ h)
    · simpa using fs_mono es s h

theorem fs_keyed :
    ∀ (l : List UsageEntry) (s : DSet),
      (((filterSeen s l).1.filter keyedB).map dedupKey).Nodup ∧
      ∀ k ∈ ((filterSeen s l).1.filter keyedB).map dedupKey,
        k ∉ s ∧ k ∈ (filterSeen s l).2
  | [], s => by simp [filterSeen]
  | e :: es, s => by
    simp only [filterSeen]
    split
    next hk =>
      split
      next hmem => exact fs_keyed es s
      next hmem =>
        have ih := fs_keyed es (dedupKey e :: s)
        constructor
        · simp only [List.filter_cons, hk, if_pos, List.map_cons]
          refine List.nodup_cons.mpr ⟨?_, ih.1⟩
          intro hcontr
          exact (ih.2 _ hcontr).1 (List.mem_cons_self _ _)
        · intro k hkmem
          simp only [List.filter_cons, hk, if_pos, List.map_cons, List.mem_cons] at hkmem
          rcases hkmem with rfl | hkmem
          · exact ⟨hmem, fs_mono es _ (List.mem_cons_self _ _)⟩
          · have := ih.2 k hkmem
            exact ⟨fun hs => this.1 (List.mem_cons_of_mem _ hs), this.2⟩
    next hk =>
      have ih := fs_keyed es s
      constructor
      · simpa [List.filter_cons, hk] using ih.1
      · intro k hkmem
        simp only [List.filter_cons, hk] at hkmem
        exact ih.2 k (by simpa using hkmem)

theorem fs_unkeyed :
    ∀ (l : List UsageEntry) (s : DSet),
      (filterSeen s l).1.filter (fun e => !keyedB e) = l.filter (fun e => !keyedB e)
  | [], _ => rfl
  | e :: es, s => by
    simp only [filterSeen]
    split
    next hk =>
      split
      · rw [fs_unkeyed es s]
        simp [List.filter_cons, hk]
      · simp only [List.filter_cons, hk]
        simpa [List.filter_cons, hk] using fs_unkeyed es (dedupKey e :: s)
    next hk =>
      simp only [List.filter_cons]
      simpa [hk] using fs_unkeyed es s

theorem fs_key_take1 (k : String) :
    ∀ (l : List UsageEntry) (s : DSet),
      (filterSeen s l).1.filter (fun e => keyedB e && (dedupKey e == k)) =
        if k ∈ s then []
        else (l.filter (fun e => keyedB e && (dedupKey e == k))).take 1
  | [], s => by by_cases h : k ∈ s <;> simp [filterSeen, h]
  | e :: es, s => by
    simp only [filterSeen]
    split
    next hk =>
      split
      next hmem =>
        rw [fs_key_take1 k es s, List.filter_cons]
        by_cases hek : dedupKey e = k
        · have hks : k ∈ s := hek ▸ hmem
          simp [hks]
        · have hbeq : (dedupKey e == k) = false := beq_eq_false_iff_ne.mpr hek
          simp [hbeq]
      next hmem =>
        by_cases hek : dedupKey e = k
        · have hks : k ∉ s := fun h => hmem (hek ▸ h)
          have hbeq : (dedupKey e == k) = true := beq_iff_eq.mpr hek
          simp only [List.filter_cons, hk, Bool.true_and, hbeq, if_pos]
          rw [fs_key_take1 k es (dedupKey e :: s)]
          have hkin : k ∈ dedupKey e :: s := by simp [hek]
          simp [hks, hkin]
        · have hbeq : (dedupKey e == k) = false := beq_eq_false_iff_ne.mpr hek
          simp only [List.filter_cons, hk, Bool.true_and, hbeq, Bool.false_eq_true, if_neg,
            not_false_eq_true]
          rw [fs_key_take1 k es (dedupKey e :: s)]
          have hkiff : k ∈ dedupKey e :: s ↔ k ∈ s := by simp [List.mem_cons, Ne.symm hek]
          exact if_congr hkiff rfl rfl
    next hk =>
      have hkf : keyedB e = false := by
        cases hkk : keyedB e
        · rfl
        · exact absurd hkk hk
      simp only [List.filter_cons, hkf, Bool.false_and, Bool.false_eq_true, if_neg,
        not_false_eq_true]
      exact fs_key_take1 k es s

theorem fs_append :
    ∀ (l₁ l₂ : List UsageEntry) (s : DSet),
      filterSeen s (l₁ ++ l₂) =
        ((filterSeen s l₁).1 ++ (filterSeen (filterSeen s l₁).2 l₂).1,
         (filterSeen (filterSeen s l₁).2 l₂).2)
  | [], l₂, s => by simp [filterSeen]
  | e :: es, l₂, s => by
    have ih1 := fs_append es l₂ s
    have ih2 := fs_append es l₂ (dedupKey e :: s)
    simp only [List.cons_append, filterSeen, List.append_eq] at ih1 ih2 ⊢
    split
    · split
      · exact ih1
      · rw [ih2]; rfl
    · rw [ih1]; rfl

theorem fs_all_unkeyed :
    ∀ (l : List UsageEntry) (s : DSet), (∀ e ∈ l, keyedB e = false) → filterSeen s l = (l, s)
  | [], _, _ => rfl
  | e :: es, s, h => by
    have he : keyedB e = false := h e (List.mem_cons_self _ _)
    simp only [filterSeen, he, Bool.false_eq_true, if_neg, not_false_eq_true]
    rw [fs_all_unkeyed es s (fun x hx => h x (List.mem_cons_of_mem _ hx))]

/-! ### Parse-level relation between the dedup-on and dedup-off runs -/

theorem pl_none_dset (c : Option Nat) (i : Bool) (pp : Option PProv) (path : String) :
    ∀ (ls : List LogLine), (procLines c i pp path ls none).2.2 = none
  | [] => rfl
  | .blank :: ls => pl_none_dset c i pp path ls
  | .invalid :: ls => pl_none_dset c i pp path ls
  | .record raw usage :: ls => by
    simp only [procLines]
    match usage with
    | none => simpa using pl_none_dset c i pp path ls
    | some e =>
      by_cases hc : keepCutoff c e.timestamp = false
      · simp only [hc, if_pos]
        simpa using pl_none_dset c i pp path ls
      · simp only [hc, if_neg, Bool.not_eq_false]
        simpa using pl_none_dset c i pp path ls

theorem pl_some_eq (c : Option Nat) (i : Bool) (pp : Option PProv) (path : String) :
    ∀ (ls : List LogLine) (s : DSet),
      procLines c i pp path ls (some s) =
        ((filterSeen s (procLines c i pp path ls none).1).1,
         (procLines c i pp path ls none).2.1,
         some (filterSeen s (procLines c i pp path ls none).1).2)
  | [], s => by simp [procLines, filterSeen]
  | .blank :: ls, s => pl_some_eq c i pp path ls s
  | .invalid :: ls, s => pl_some_eq c i pp path ls s
  | .record raw usage :: ls, s => by
    match usage with
    | none =>
      simp only [procLines]
      rw [pl_some_eq c i pp path ls s]
    | some e =>
      by_cases hc : keepCutoff c e.timestamp = false
      · simp only [procLines, hc, if_pos]
        rw [pl_some_eq c i pp path ls s]
      · simp only [procLines, hc, if_neg, Bool.not_eq_false]
        by_cases hk : keyedB e
        · by_cases hmem : dedupKey e ∈ s
          · simp only [hk, if_pos, hmem]
            rw [pl_some_eq c i pp path ls s]
            simp [filterSeen, hk, hmem]
          · simp only [hk, if_pos, hmem, if_neg, not_false_eq_true]
            rw [pl_some_eq c i pp path ls (dedupKey e :: s)]
            simp [filterSeen, hk, hmem]
        · simp only [hk, if_neg, Bool.false_eq_true, not_false_eq_true]
          rw [pl_some_eq c i pp path ls s]
          simp [filterSeen, hk]

/-! ### Per-file processor facts -/

theorem pf_none_dset (c : Option Nat) (i : Bool) (pp : Option PProv) (fd : FileData) :
    (processSingleFileWithDedup c i pp none fd).2 = none := by
  unfold processSingleFileWithDedup
  split
  · rfl
  · split <;> simp [pl_none_dset]

theorem pf_err_nil (c : Option Nat) (i : Bool) (pp : Option PProv) (d : Option DSet)
    (fd : FileData) (h : (processSingleFileWithDedup c i pp d fd).1.2.2.isSome) :
    (processSingleFileWithDedup c i pp d fd).1.1 = [] ∧
    (processSingleFileWithDedup c i pp d fd).1.2.1 = [] := by
  unfold processSingleFileWithDedup at h ⊢
  by_cases ho : fd.openOk = false
  · simp [ho]
  · by_cases hs : fd.scanErr
    · simp [ho, hs]
    · simp [ho, hs] at h

theorem pf_err_iff (c : Option Nat) (i : Bool) (pp : Option PProv) (d : Option DSet)
    (fd : FileData) :
    (processSingleFileWithDedup c i pp d fd).1.2.2.isSome = (!fd.openOk || fd.scanErr) := by
  unfold processSingleFileWithDedup
  by_cases ho : fd.openOk = false
  · simp [ho]
  · have ho' : fd.openOk = true := by
      cases h : fd.openOk
      · exact absurd h ho
      · rfl
    by_cases hs : fd.scanErr <;> simp [ho', hs]

theorem pf_scanError_only (c : Option Nat) (i : Bool) (pp : Option PProv) (d : Option DSet)
    (fd : FileData)
    (h : (processSingleFileWithDedup c i pp d fd).1.2.2 = some PErr.scanError) :
    fd.scanErr = true := by
  unfold processSingleFileWithDedup at h
  split at h
  · simp at h
  · split at h
    · assumption
    · simp at h

theorem pf_some (c : Option Nat) (i : Bool) (pp : Option PProv) (fd : FileData) (s : DSet) :
    (processSingleFileWithDedup c i pp (some s) fd).1.2.2
        = (processSingleFileWithDedup c i pp none fd).1.2.2 ∧
    (processSingleFileWithDedup c i pp (some s) fd).1.2.1
        = (processSingleFileWithDedup c i pp none fd).1.2.1 ∧
    (processSingleFileWithDedup c i pp (some s) fd).1.1
        = (filterSeen s (processSingleFileWithDedup c i pp none fd).1.1).1 ∧
    ((processSingleFileWithDedup c i pp (some s) fd).1.2.2 ≠ some PErr.scanError →
      (processSingleFileWithDedup c i pp (some s) fd).2
        = some (filterSeen s (processSingleFileWithDedup c i pp none fd).1.1).2) ∧
    (∃ s', (processSingleFileWithDedup c i pp (some s) fd).2 = some s' ∧ ∀ k ∈ s, k ∈ s') := by
  unfold processSingleFileWithDedup
  by_cases ho : fd.openOk = false
  · refine ⟨by simp [ho], by simp [ho], by simp [ho, filterSeen],
      fun _ => by simp [ho, filterSeen], ⟨s, by simp [ho], fun k hk => hk⟩⟩
  · by_cases hs : fd.scanErr
    · refine ⟨by simp [ho, hs], by simp [ho, hs], ?_, ?_, ?_⟩
      · simp only [ho, hs]
        simp [filterSeen]
      · intro hcontr
        simp [ho, hs] at hcontr
      · refine ⟨(procLines c i pp fd.path fd.lines (some s)).2.2.getD [], ?_, ?_⟩
        · simp only [ho, hs]
          simp [pl_some_eq]
        · intro k hk
          simp only [pl_some_eq, Option.getD_some]
          exact fs_mono _ s hk
    · refine ⟨by simp [ho, hs], ?_, ?_, fun _ => ?_, ?_⟩
      · simp only [ho, hs]
        simp [pl_some_eq]
      · simp only [ho, hs]
        simp [pl_some_eq]
      · simp only [ho, hs]
        simp [pl_some_eq]
      · refine ⟨(filterSeen s (procLines c i pp fd.path fd.lines none).1).2, ?_,
          fun k hk => fs_mono _ s hk⟩
        simp only [ho, hs]
        simp [pl_some_eq]

/-! ### Step relation for the cache-aware per-file wrapper -/

/-- The relation between a dedup-threaded run of the cache-aware per-file
processor (against store `st`) and the nil-dedup run against a store `st0`
agreeing at the file's path: the observable components coincide; a cache hit
serves its reconstructed entries in both runs and leaves the seen-key set
untouched (the hit path bypasses deduplication entirely, and hits carry no
error); a non-hit's threaded entries are the first-seen-wins filtering of the
nil-dedup entries, with the set advanced exactly to the filter's output set
unless the file died with a scanner error; the seen-key set only grows; and
the store is modified at most at the file's own path, where it is either
untouched or erased. -/
def StepRel (fd : FileData) (st st0 : Option Store) (d : Option DSet)
    (c c0 : FPR × Option Store × Option DSet) : Prop :=
  c.1.fromCache = c0.1.fromCache ∧
  c.1.missReason = c0.1.missReason ∧
  c.1.error = c0.1.error ∧
  c.1.raws = c0.1.raws ∧
  (d = none → c.1.entries = c0.1.entries ∧ c.2.2 = none) ∧
  (c.1.fromCache = true → c.1.entries = c0.1.entries ∧ c.2.2 = d) ∧
  (c.1.fromCache = true → c.1.error = none) ∧
  (∀ s, d = some s → c.1.fromCache = false →
    c.1.entries = (filterSeen s c0.1.entries).1 ∧
    (c.1.error ≠ some PErr.scanError →
      c.2.2 = some (filterSeen s c0.1.entries).2)) ∧
  (∀ s, d = some s → ∃ s', c.2.2 = some s' ∧ ∀ k ∈ s, k ∈ s') ∧
  (∀ q, q ≠ fd.path → storeLook c.2.1 q = storeLook st q) ∧
  (storeLook c.2.1 fd.path = storeLook st fd.path ∨ storeLook c.2.1 fd.path = none) ∧
  c.2.1.isSome = st.isSome ∧
  (st = st0 → c.2.1 = c0.2.1) ∧
  (c.1.error = some PErr.scanError → fd.scanErr = true) ∧
  (c.1.error.isSome → c.1.entries = [] ∧ c0.1.entries = [])

theorem pac_step (opts : LoadOpts) (fd : FileData) (st st0 : Store)
    (hagree : st fd.path = st0 fd.path) (d : Option DSet) :
    StepRel fd (some st) (some st0) d (processAfterCache opts st d fd)
      (processAfterCache opts st0 none fd) := by
  have hmr : (match st fd.path with | none => "new_file" | some _ => "modified_file")
      = (match st0 fd.path with | none => "new_file" | some _ => "modified_file") := by
    rw [hagree]
  unfold StepRel processAfterCache
  by_cases hha : fd.hasAssistant = false
  · rw [if_pos hha, if_pos hha]
    exact ⟨rfl, rfl, rfl, rfl, fun hd => ⟨rfl, hd⟩,
      fun h => Bool.noConfusion h, fun h => Bool.noConfusion h,
      fun s hs _ => ⟨by simp [filterSeen], fun _ => by simp [hs, filterSeen]⟩,
      fun s hs => ⟨s, hs, fun k hk => hk⟩,
      fun q hq => rfl, Or.inl rfl, rfl, fun hst => by rw [hst], by simp, by simp⟩
  · rw [if_neg hha, if_neg hha]
    cases d with
    | none =>
      refine ⟨rfl, hmr, rfl, rfl, fun _ => ⟨rfl, pf_none_dset _ _ _ _⟩,
        fun h => Bool.noConfusion h, fun h => Bool.noConfusion h,
        fun s hs => Option.noConfusion hs, fun s hs => Option.noConfusion hs,
        fun q hq => rfl, Or.inl rfl, rfl, fun hst => by rw [hst],
        fun h => pf_scanError_only _ _ _ _ _ h, fun h => ?_⟩
      have := pf_err_nil opts.cutoff opts.includeRaw opts.pricing none fd h
      exact ⟨this.1, this.1⟩
    | some s =>
      obtain ⟨he, hr, hen, hds, hgrow⟩ :=
        pf_some opts.cutoff opts.includeRaw opts.pricing fd s
      refine ⟨rfl, hmr, he, hr, fun hd => Option.noConfusion hd,
        fun h => Bool.noConfusion h, fun h => Bool.noConfusion h, ?_, ?_,
        fun q hq => rfl, Or.inl rfl, rfl,
        fun hst => by rw [hst], fun h => pf_scanError_only _ _ _ _ _ h, fun h => ?_⟩
      · intro s' hs' _
        obtain rfl : s = s' := by injection hs'
        exact ⟨hen, hds⟩
      · intro s' hs'
        obtain rfl : s = s' := by injection hs'
        exact hgrow
      · exact ⟨(pf_err_nil opts.cutoff opts.includeRaw opts.pricing (some s) fd h).1,
          (pf_err_nil opts.cutoff opts.includeRaw opts.pricing none fd (he ▸ h)).1⟩

theorem pcad_step (opts : LoadOpts) (fd : FileData)
    (hcoh : fd.statInfo = none → fd.openOk = false)
    (st st0 : Option Store) (hsome : st.isSome = st0.isSome)
    (hagree : storeLook st fd.path = storeLook st0 fd.path) (d : Option DSet) :
    StepRel fd st st0 d (processSingleFileWithCacheAndDedup opts st d fd)
      (processSingleFileWithCacheAndDedup opts st0 none fd) := by
  cases st with
  | none =>
    cases st0 with
    | some b => simp [Option.isSome] at hsome
    | none =>
      unfold StepRel processSingleFileWithCacheAndDedup
      cases d with
      | none =>
        refine ⟨rfl, rfl, rfl, rfl, fun _ => ⟨rfl, pf_none_dset _ _ _ _⟩,
          fun h => Bool.noConfusion h, fun h => Bool.noConfusion h,
          fun s hs => Option.noConfusion hs, fun s hs => Option.noConfusion hs,
          fun q hq => rfl, Or.inl rfl, rfl, fun _ => rfl,
          fun h => pf_scanError_only _ _ _ _ _ h, fun h => ?_⟩
        have := pf_err_nil opts.cutoff opts.includeRaw opts.pricing none fd h
        exact ⟨this.1, this.1⟩
      | some s =>
        obtain ⟨he, hr, hen, hds, hgrow⟩ :=
          pf_some opts.cutoff opts.includeRaw opts.pricing fd s
        refine ⟨rfl, rfl, he, hr, fun hd => Option.noConfusion hd,
          fun h => Bool.noConfusion h, fun h => Bool.noConfusion h, ?_, ?_,
          fun q hq => rfl, Or.inl rfl, rfl,
          fun _ => rfl, fun h => pf_scanError_only _ _ _ _ _ h, fun h => ?_⟩
        · intro s' hs' _
          obtain rfl : s = s' := by injection hs'
          exact ⟨hen, hds⟩
        · intro s' hs'
          obtain rfl : s = s' := by injection hs'
          exact hgrow
        · exact ⟨(pf_err_nil opts.cutoff opts.includeRaw opts.pricing (some s) fd h).1,
            (pf_err_nil opts.cutoff opts.includeRaw opts.pricing none fd (he ▸ h)).1⟩
  | some a =>
    cases st0 with
    | none => simp [Option.isSome] at hsome
    | some b =>
      have hagree' : a fd.path = b fd.path := hagree
      cases hstat : fd.statInfo with
      | none =>
        have hopen : fd.openOk = false := hcoh hstat
        have hb : processSingleFileWithDedup opts.cutoff opts.includeRaw opts.pricing
            none fd = (([], [], some PErr.openFailed), none) := by
          unfold processSingleFileWithDedup
          rw [if_pos hopen]
        unfold StepRel processSingleFileWithCacheAndDedup
        rw [hstat]
        refine ⟨rfl, rfl, rfl, rfl, fun hd => ⟨rfl, hd⟩,
          fun h => Bool.noConfusion h, fun h => Bool.noConfusion h, ?_,
          fun s hs => ⟨s, hs, fun k hk => hk⟩,
          fun q hq => rfl, Or.inl rfl, rfl,
          fun hst => by rw [hst], fun h => pf_scanError_only _ _ _ _ _ h, fun h => ?_⟩
        · intro s hs _
          refine ⟨?_, fun _ => ?_⟩
          · simp [hb, filterSeen]
          · simp [hb, hs, filterSeen]
        · have := pf_err_nil opts.cutoff opts.includeRaw opts.pricing none fd h
          exact ⟨this.1, this.1⟩
      | some msz =>
        obtain ⟨mt, sz⟩ := msz
        unfold StepRel processSingleFileWithCacheAndDedup
        rw [hstat]
        dsimp only
        cases hsum : a fd.path with
        | some cs =>
          have hsum0 : b fd.path = some cs := hagree' ▸ hsum
          rw [hsum0]
          dsimp only
          by_cases hexp : cs.isExpired mt sz
          · rw [if_pos hexp, if_pos hexp]
            have R := pac_step opts fd (storeInvalidate a fd.path) (storeInvalidate b fd.path)
              (by simp [storeInvalidate]) d
            obtain ⟨R1, R2, R3, R4, R5, R6H, R6F, R6P, R6G, R7, R7b, R8, R9, R10, R11⟩ := R
            refine ⟨R1, R2, R3, R4, R5, R6H, R6F, R6P, R6G, ?_, ?_, R8, ?_, R10, R11⟩
            · intro q hq
              rw [R7 q hq]
              simp [storeLook, storeInvalidate, hq]
            · rcases R7b with hb | hb
              · refine Or.inr ?_
                rw [hb]
                simp [storeLook, storeInvalidate]
              · exact Or.inr hb
            · intro hst
              have hab : a = b := by injection hst
              subst hab
              exact R9 rfl
          · rw [if_neg hexp, if_neg hexp]
            by_cases hnoa : cs.hasNoAssistantMessages
            · rw [if_pos hnoa, if_pos hnoa]
              exact ⟨rfl, rfl, rfl, rfl, fun hd => ⟨rfl, hd⟩,
                fun _ => ⟨rfl, rfl⟩, fun _ => rfl,
                fun s hs hf => Bool.noConfusion hf,
                fun s hs => ⟨s, hs, fun k hk => hk⟩,
                fun q hq => rfl, Or.inl rfl, rfl,
                fun hst => by rw [hst], by simp, by simp⟩
            · rw [if_neg hnoa, if_neg hnoa]
              exact ⟨rfl, rfl, rfl, rfl, fun hd => ⟨rfl, hd⟩,
                fun _ => ⟨rfl, rfl⟩, fun _ => rfl,
                fun s hs hf => Bool.noConfusion hf,
                fun s hs => ⟨s, hs, fun k hk => hk⟩,
                fun q hq => rfl, Or.inl rfl, rfl,
                fun hst => by rw [hst], by simp, by simp⟩
        | none =>
          have hsum0 : b fd.path = none := hagree' ▸ hsum
          rw [hsum0]
          dsimp only
          exact pac_step opts fd a b hagree' d

/-- `processAfterCache` never reports a cache hit. -/
theorem pac_fromCache_false (opts : LoadOpts) (st : Store) (d : Option DSet) (fd : FileData) :
    (processAfterCache opts st d fd).1.fromCache = false := by
  unfold processAfterCache
  by_cases hha : fd.hasAssistant = false
  · rw [if_pos hha]
  · rw [if_neg hha]

/-- A store (as threaded through a load) is keyed-free when every summary it
holds carries only entries missing at least one identifier — the regime in
which reconstructed cache-hit entries are immune to deduplication by
construction. -/
def StoreKeyedFree (st : Option Store) : Prop :=
  ∀ p fsum, storeLook st p = some fsum → ∀ e ∈ fsum.entryData, keyedB e = false

/-- Over a keyed-free store, the entries a cache hit reconstructs are all
unkeyed. -/
theorem pcad_hit_unkeyed (opts : LoadOpts) (st : Option Store) (d : Option DSet)
    (fd : FileData) (hkf : StoreKeyedFree st)
    (h : (processSingleFileWithCacheAndDedup opts st d fd).1.fromCache = true) :
    ∀ e ∈ (processSingleFileWithCacheAndDedup opts st d fd).1.entries,
      keyedB e = false := by
  revert h
  unfold processSingleFileWithCacheAndDedup
  cases st with
  | none => intro h; exact Bool.noConfusion h
  | some a =>
    cases hstat : fd.statInfo with
    | none => intro h; exact Bool.noConfusion h
    | some msz =>
      obtain ⟨mt, sz⟩ := msz
      dsimp only
      cases hsum : a fd.path with
      | none =>
        dsimp only
        intro h
        rw [pac_fromCache_false] at h
        exact Bool.noConfusion h
      | some cs =>
        dsimp only
        by_cases hexp : cs.isExpired mt sz
        · rw [if_pos hexp]
          intro h
          rw [pac_fromCache_false] at h
          exact Bool.noConfusion h
        · rw [if_neg hexp]
          by_cases hnoa : cs.hasNoAssistantMessages = true
          · rw [if_pos hnoa]
            intro _ e he
            exact absurd he (List.not_mem_nil e)
          · rw [if_neg hnoa]
            intro _ e he
            have hmem : e ∈ cs.entryData := by
              simp only [createEntriesFromSummary, List.mem_filter] at he
              exact he.1
            exact hkf fd.path cs hsum e hmem

/-- Per-file processing preserves keyed-freeness of the store: it only ever
erases the entry at the file's own path. -/
theorem skf_preserved (opts : LoadOpts) (st : Option Store) (d : Option DSet)
    (fd : FileData) (hcoh : fd.statInfo = none → fd.openOk = false)
    (hkf : StoreKeyedFree st) :
    StoreKeyedFree (processSingleFileWithCacheAndDedup opts st d fd).2.1 := by
  obtain ⟨_, _, _, _, _, _, _, _, _, R7, R7b, _, _, _, _⟩ :=
    pcad_step opts fd hcoh st st rfl rfl d
  intro p fsum h e he
  by_cases hp : p = fd.path
  · subst hp
    rcases R7b with hb | hb
    · rw [hb] at h
      exact hkf fd.path fsum h e he
    · rw [hb] at h
      exact Option.noConfusion h
  · rw [R7 p hp] at h
    exact hkf p fsum h e he

/-! ### Merge-time versus thread-time deduplication at the load level -/

theorem mergeGo_some_eq (i : Bool) :
    ∀ (rs : List (String × FPR)) (s : DSet),
      (mergeGo i (some s) rs).1 = (filterSeen s (mergeGo i none rs).1).1 ∧
      (mergeGo i (some s) rs).2.1 = (mergeGo i none rs).2.1 ∧
      (mergeGo i (some s) rs).2.2 = (mergeGo i none rs).2.2
  | [], s => by simp [mergeGo, filterSeen]
  | (p, r) :: rs, s => by
    obtain ⟨ih1, ih2, ih3⟩ := mergeGo_some_eq i rs s
    cases herr : r.error with
    | some e =>
      simp only [mergeGo, herr]
      exact ⟨ih1, ih2, by rw [ih3]⟩
    | none =>
      obtain ⟨jh1, jh2, jh3⟩ := mergeGo_some_eq i rs (filterSeen s r.entries).2
      simp only [mergeGo, herr]
      rw [fs_append]
      exact ⟨by rw [jh1], by rw [jh2], by rw [jh3]⟩

/-- Sequential-versus-concurrent core lemma: starting from a store that agrees
with the concurrent run's initial store on every remaining path, with
pairwise-distinct paths, coherent stat/open failures, a keyed-free initial
store (cached summaries reconstruct only entries missing an identifier — in
the sequential path they bypass the seen-key set, in the concurrent path
they pass through the merge-time filter), and (when deduplication is
threaded) no scanner errors, the sequential pass produces exactly the merged
entries, raw tags and errors of the concurrent per-file results, and the
same cache statistics. -/
theorem seqGo_eq_conc (opts : LoadOpts) :
    ∀ (files : List FileData) (st st0 : Option Store) (d : Option DSet),
      st.isSome = st0.isSome →
      (∀ fd ∈ files, storeLook st fd.path = storeLook st0 fd.path) →
      (files.map FileData.path).Nodup →
      (∀ fd ∈ files, fd.statInfo = none → fd.openOk = false) →
      StoreKeyedFree st0 →
      (d.isSome = true → ∀ fd ∈ files, fd.scanErr = false) →
      (seqGo opts st d files).entries
          = (mergeGo opts.includeRaw d (concResults opts st0 files)).1 ∧
      (seqGo opts st d files).raws
          = (mergeGo opts.includeRaw d (concResults opts st0 files)).2.1 ∧
      (seqGo opts st d files).errors
          = (mergeGo opts.includeRaw d (concResults opts st0 files)).2.2 ∧
      (seqGo opts st d files).hits = (concStats (concResults opts st0 files)).hits ∧
      (seqGo opts st d files).misses = (concStats (concResults opts st0 files)).misses ∧
      (seqGo opts st d files).missNew = (concStats (concResults opts st0 files)).missNew ∧
      (seqGo opts st d files).missModified
          = (concStats (concResults opts st0 files)).missModified ∧
      (seqGo opts st d files).missNoAssistant
          = (concStats (concResults opts st0 files)).missNoAssistant ∧
      (seqGo opts st d files).missOther = (concStats (concResults opts st0 files)).missOther
  | [], st, st0, d, _, _, _, _, _, _ => by
    simp [seqGo, concResults, mergeGo, concStats, CoreOut.empty]
  | fd :: fs, st, st0, d, hsome, hagree, hnodup, hcoh, hkf0, hscan => by
    obtain ⟨R1, R2, R3, R4, R5, R6H, R6F, R6P, R6G, R7, R7b, R8, R9, R10, R11⟩ :=
      pcad_step opts fd (hcoh fd (List.mem_cons_self _ _)) st st0 hsome
        (hagree fd (List.mem_cons_self _ _)) d
    have hnodup' : (fs.map FileData.path).Nodup := (List.nodup_cons.mp hnodup).2
    have hnotmem : fd.path ∉ fs.map FileData.path := (List.nodup_cons.mp hnodup).1
    have hagree' : ∀ fd' ∈ fs,
        storeLook (processSingleFileWithCacheAndDedup opts st d fd).2.1 fd'.path
          = storeLook st0 fd'.path := by
      intro fd' hfd'
      have hne : fd'.path ≠ fd.path := by
        intro hcontr
        exact hnotmem (hcontr ▸ List.mem_map_of_mem FileData.path hfd')
      rw [R7 fd'.path hne]
      exact hagree fd' (List.mem_cons_of_mem _ hfd')
    have hsome' : (processSingleFileWithCacheAndDedup opts st d fd).2.1.isSome
        = st0.isSome := R8.trans hsome
    have hcoh' : ∀ fd' ∈ fs, fd'.statInfo = none → fd'.openOk = false :=
      fun fd' h => hcoh fd' (List.mem_cons_of_mem _ h)
    have hscan' : ∀ {d' : Option DSet}, d'.isSome = true → d'.isSome = d.isSome →
        ∀ fd' ∈ fs, fd'.scanErr = false := by
      intro d' h1 h2 fd' hfd'
      exact hscan (h2 ▸ h1) fd' (List.mem_cons_of_mem _ hfd')
    cases herr : (processSingleFileWithCacheAndDedup opts st d fd).1.error with
    | some e =>
      have hc0err : (processSingleFileWithCacheAndDedup opts st0 none fd).1.error = some e :=
        R3.symm.trans herr
      -- the seen-key set is unchanged by a failing file
      have hd' : (processSingleFileWithCacheAndDedup opts st d fd).2.2 = d := by
        cases d with
        | none => exact (R5 rfl).2
        | some s =>
          have hescan : e ≠ PErr.scanError := by
            intro hcontr
            subst hcontr
            have := R10 herr
            rw [hscan rfl fd (List.mem_cons_self _ _)] at this
            exact Bool.noConfusion this
          have hfcF : (processSingleFileWithCacheAndDedup opts st (some s) fd).1.fromCache
              = false := by
            cases hb : (processSingleFileWithCacheAndDedup opts st (some s) fd).1.fromCache
            · rfl
            · rw [R6F hb] at herr
              exact Option.noConfusion herr
          have hnot : (processSingleFileWithCacheAndDedup opts st (some s) fd).1.error
              ≠ some PErr.scanError := by
            rw [herr]
            intro hcontr
            injection hcontr with hcontr
            exact hescan hcontr
          have hdd := (R6P s rfl hfcF).2 hnot
          rw [hdd, (R11 (by rw [herr]; rfl)).2]
          rfl
      obtain ⟨I1, I2, I3, I4, I5, I6, I7, I8, I9⟩ :=
        seqGo_eq_conc opts fs (processSingleFileWithCacheAndDedup opts st d fd).2.1 st0
          d hsome' hagree' hnodup' hcoh' hkf0
          (fun h fd' hfd' => hscan h fd' (List.mem_cons_of_mem _ hfd'))
      simp only [concResults] at I1 I2 I3 I4 I5 I6 I7 I8 I9
      simp only [seqGo, herr, concResults, List.map_cons, mergeGo, concStats, hc0err]
      rw [hd']
      exact ⟨I1, I2, by rw [I3], I4, I5, I6, I7, I8, I9⟩
    | none =>
      have hc0err : (processSingleFileWithCacheAndDedup opts st0 none fd).1.error = none :=
        R3.symm.trans herr
      cases d with
      | none =>
        have hd' : (processSingleFileWithCacheAndDedup opts st none fd).2.2 = none :=
          (R5 rfl).2
        obtain ⟨I1, I2, I3, I4, I5, I6, I7, I8, I9⟩ :=
          seqGo_eq_conc opts fs (processSingleFileWithCacheAndDedup opts st none fd).2.1 st0
            none hsome' hagree' hnodup' hcoh' hkf0 (fun h => Bool.noConfusion h)
        simp only [concResults] at I1 I2 I3 I4 I5 I6 I7 I8 I9
        simp only [seqGo, herr, concResults, List.map_cons, mergeGo, concStats, hc0err]
        rw [hd']
        refine ⟨?_, ?_, by rw [I3], ?_, ?_, ?_, ?_, ?_, ?_⟩
        · rw [I1, (R5 rfl).1]
        · rw [I2, R4]
        · rw [I4, R1]
        · rw [I5, R1]
        · rw [I6, R1, R2]
        · rw [I7, R1, R2]
        · rw [I8, R1, R2]
        · rw [I9, R1, R2]
      | some s =>
        by_cases hfc : (processSingleFileWithCacheAndDedup opts st (some s) fd).1.fromCache
            = true
        · obtain ⟨hent, hset⟩ := R6H hfc
          have hfc0 : (processSingleFileWithCacheAndDedup opts st0 none fd).1.fromCache
              = true := R1.symm.trans hfc
          have hunk := pcad_hit_unkeyed opts st0 none fd hkf0 hfc0
          have hfs1 : (filterSeen s
              (processSingleFileWithCacheAndDedup opts st0 none fd).1.entries).1
                = (processSingleFileWithCacheAndDedup opts st0 none fd).1.entries := by
            rw [fs_all_unkeyed _ s hunk]
          have hfs2 : (filterSeen s
              (processSingleFileWithCacheAndDedup opts st0 none fd).1.entries).2 = s := by
            rw [fs_all_unkeyed _ s hunk]
          obtain ⟨I1, I2, I3, I4, I5, I6, I7, I8, I9⟩ :=
            seqGo_eq_conc opts fs
              (processSingleFileWithCacheAndDedup opts st (some s) fd).2.1 st0
              (some s) hsome' hagree' hnodup' hcoh' hkf0
              (fun _ fd' hfd' => hscan rfl fd' (List.mem_cons_of_mem _ hfd'))
          simp only [concResults] at I1 I2 I3 I4 I5 I6 I7 I8 I9
          simp only [seqGo, herr, concResults, List.map_cons, mergeGo, concStats, hc0err]
          rw [hset, hfs2]
          refine ⟨?_, ?_, by rw [I3], ?_, ?_, ?_, ?_, ?_, ?_⟩
          · rw [I1, hent, hfs1]
          · rw [I2, R4]
          · rw [I4, R1]
          · rw [I5, R1]
          · rw [I6, R1, R2]
          · rw [I7, R1, R2]
          · rw [I8, R1, R2]
          · rw [I9, R1, R2]
        · have hfcF : (processSingleFileWithCacheAndDedup opts st (some s) fd).1.fromCache
              = false := by
            cases hb : (processSingleFileWithCacheAndDedup opts st (some s) fd).1.fromCache
            · rfl
            · exact absurd hb hfc
          obtain ⟨h61, h62⟩ := R6P s rfl hfcF
          have hd' : (processSingleFileWithCacheAndDedup opts st (some s) fd).2.2
              = some (filterSeen s
                  (processSingleFileWithCacheAndDedup opts st0 none fd).1.entries).2 :=
            h62 (by rw [herr]; exact fun hcontr => Option.noConfusion hcontr)
          obtain ⟨I1, I2, I3, I4, I5, I6, I7, I8, I9⟩ :=
            seqGo_eq_conc opts fs
              (processSingleFileWithCacheAndDedup opts st (some s) fd).2.1 st0
              (some (filterSeen s
                (processSingleFileWithCacheAndDedup opts st0 none fd).1.entries).2)
              hsome' hagree' hnodup' hcoh' hkf0
              (fun _ fd' hfd' => hscan rfl fd' (List.mem_cons_of_mem _ hfd'))
          simp only [concResults] at I1 I2 I3 I4 I5 I6 I7 I8 I9
          simp only [seqGo, herr, concResults, List.map_cons, mergeGo, concStats, hc0err]
          rw [hd']
          refine ⟨?_, ?_, by rw [I3], ?_, ?_, ?_, ?_, ?_, ?_⟩
          · rw [I1, h61]
          · rw [I2, R4]
          · rw [I4, R1]
          · rw [I5, R1]
          · rw [I6, R1, R2]
          · rw [I7, R1, R2]
          · rw [I8, R1, R2]
          · rw [I9, R1, R2]

/-- With deduplication threaded (starting set `s`) over a keyed-free store,
the keys of the keyed entries surviving a sequential load are pairwise
distinct and all outside `s` — at most one entry survives per deduplication
key, with or without scanner errors.  The store hypothesis is essential:
keyed entries reconstructed from a cached summary bypass the seen-key set
entirely, so over an arbitrary store a key can survive twice. -/
theorem seqGo_keys_nodup (opts : LoadOpts) :
    ∀ (files : List FileData) (st : Option Store) (s : DSet),
      (∀ fd ∈ files, fd.statInfo = none → fd.openOk = false) →
      StoreKeyedFree st →
      ((((seqGo opts st (some s) files).entries.filter keyedB).map dedupKey).Nodup ∧
       ∀ k ∈ ((seqGo opts st (some s) files).entries.filter keyedB).map dedupKey, k ∉ s)
  | [], st, s, _, _ => by simp [seqGo, CoreOut.empty]
  | fd :: fs, st, s, hcoh, hkf => by
    obtain ⟨R1, R2, R3, R4, R5, R6H, R6F, R6P, R6G, R7, R7b, R8, R9, R10, R11⟩ :=
      pcad_step opts fd (hcoh fd (List.mem_cons_self _ _)) st st rfl rfl (some s)
    have hcoh' : ∀ fd' ∈ fs, fd'.statInfo = none → fd'.openOk = false :=
      fun fd' h => hcoh fd' (List.mem_cons_of_mem _ h)
    have hkf' : StoreKeyedFree (processSingleFileWithCacheAndDedup opts st (some s) fd).2.1 :=
      skf_preserved opts st (some s) fd (hcoh fd (List.mem_cons_self _ _)) hkf
    obtain ⟨s', hs', hsub⟩ := R6G s rfl
    cases herr : (processSingleFileWithCacheAndDedup opts st (some s) fd).1.error with
    | some e =>
      obtain ⟨IH1, IH2⟩ := seqGo_keys_nodup opts fs
        (processSingleFileWithCacheAndDedup opts st (some s) fd).2.1 s' hcoh' hkf'
      simp only [seqGo, herr, hs']
      exact ⟨IH1, fun k hk hks => IH2 k hk (hsub k hks)⟩
    | none =>
      by_cases hfc : (processSingleFileWithCacheAndDedup opts st (some s) fd).1.fromCache
          = true
      · obtain ⟨_, hset⟩ := R6H hfc
        have hunk := pcad_hit_unkeyed opts st (some s) fd hkf hfc
        have hflt : (processSingleFileWithCacheAndDedup opts st (some s) fd).1.entries.filter
            keyedB = [] := by
          rw [List.filter_eq_nil_iff]
          intro a ha
          simp [hunk a ha]
        obtain ⟨IH1, IH2⟩ := seqGo_keys_nodup opts fs
          (processSingleFileWithCacheAndDedup opts st (some s) fd).2.1 s hcoh' hkf'
        simp only [seqGo, herr, hset]
        rw [List.filter_append, hflt, List.nil_append]
        exact ⟨IH1, IH2⟩
      · have hfcF : (processSingleFileWithCacheAndDedup opts st (some s) fd).1.fromCache
            = false := by
          cases hb : (processSingleFileWithCacheAndDedup opts st (some s) fd).1.fromCache
          · rfl
          · exact absurd hb hfc
        obtain ⟨h61, h62⟩ := R6P s rfl hfcF
        have hs2 : (processSingleFileWithCacheAndDedup opts st (some s) fd).2.2
            = some (filterSeen s
                (processSingleFileWithCacheAndDedup opts st none fd).1.entries).2 :=
          h62 (by rw [herr]; exact fun hcontr => Option.noConfusion hcontr)
        obtain ⟨IH1, IH2⟩ := seqGo_keys_nodup opts fs
          (processSingleFileWithCacheAndDedup opts st (some s) fd).2.1
          (filterSeen s (processSingleFileWithCacheAndDedup opts st none fd).1.entries).2
          hcoh' hkf'
        obtain ⟨F1, F2⟩ := fs_keyed
          (processSingleFileWithCacheAndDedup opts st none fd).1.entries s
        simp only [seqGo, herr, hs2]
        rw [h61]
        constructor
        · rw [List.filter_append, List.map_append]
          refine List.Nodup.append F1 IH1 ?_
          intro k hk1 hk2
          exact IH2 k hk2 (F2 k hk1).2
        · intro k hk
          rw [List.filter_append, List.map_append, List.mem_append] at hk
          rcases hk with hk | hk
          · exact (F2 k hk).1
          · intro hks
            exact IH2 k hk (fs_mono _ s hks)

/-- Entries missing either identifier are never dropped by deduplication:
filtering them out of the dedup-threaded sequential load gives exactly the
same list as in the dedup-free load. -/
theorem seqGo_unkeyed (opts : LoadOpts) :
    ∀ (files : List FileData) (st : Option Store) (s : DSet),
      (∀ fd ∈ files, fd.statInfo = none → fd.openOk = false) →
      (seqGo opts st (some s) files).entries.filter (fun e => !keyedB e)
        = (seqGo opts st none files).entries.filter (fun e => !keyedB e)
  | [], st, s, _ => by simp [seqGo, CoreOut.empty]
  | fd :: fs, st, s, hcoh => by
    obtain ⟨R1, R2, R3, R4, R5, R6H, R6F, R6P, R6G, R7, R7b, R8, R9, R10, R11⟩ :=
      pcad_step opts fd (hcoh fd (List.mem_cons_self _ _)) st st rfl rfl (some s)
    obtain ⟨_, _, _, _, N5, _, _, _, _, _, _, _, N9, _, _⟩ :=
      pcad_step opts fd (hcoh fd (List.mem_cons_self _ _)) st st rfl rfl none
    have hcoh' : ∀ fd' ∈ fs, fd'.statInfo = none → fd'.openOk = false :=
      fun fd' h => hcoh fd' (List.mem_cons_of_mem _ h)
    have hst9 : (processSingleFileWithCacheAndDedup opts st (some s) fd).2.1
        = (processSingleFileWithCacheAndDedup opts st none fd).2.1 := R9 rfl
    have hnone2 : (processSingleFileWithCacheAndDedup opts st none fd).2.2 = none :=
      (N5 rfl).2
    obtain ⟨s', hs', hsub⟩ := R6G s rfl
    cases herr : (processSingleFileWithCacheAndDedup opts st (some s) fd).1.error with
    | some e =>
      have herr0 : (processSingleFileWithCacheAndDedup opts st none fd).1.error = some e :=
        R3.symm.trans herr
      simp only [seqGo, herr, herr0, hs', hnone2, hst9]
      exact seqGo_unkeyed opts fs _ s' hcoh'
    | none =>
      have herr0 : (processSingleFileWithCacheAndDedup opts st none fd).1.error = none :=
        R3.symm.trans herr
      by_cases hfc : (processSingleFileWithCacheAndDedup opts st (some s) fd).1.fromCache
          = true
      · obtain ⟨hent, hset⟩ := R6H hfc
        simp only [seqGo, herr, herr0, hset, hnone2, hst9]
        rw [hent, List.filter_append, List.filter_append]
        rw [seqGo_unkeyed opts fs _ s hcoh']
      · have hfcF : (processSingleFileWithCacheAndDedup opts st (some s) fd).1.fromCache
            = false := by
          cases hb : (processSingleFileWithCacheAndDedup opts st (some s) fd).1.fromCache
          · rfl
          · exact absurd hb hfc
        obtain ⟨h61, h62⟩ := R6P s rfl hfcF
        have hs2 : (processSingleFileWithCacheAndDedup opts st (some s) fd).2.2
            = some (filterSeen s
                (processSingleFileWithCacheAndDedup opts st none fd).1.entries).2 :=
          h62 (by rw [herr]; exact fun hcontr => Option.noConfusion hcontr)
        simp only [seqGo, herr, herr0, hs2, hnone2, hst9]
        rw [h61, List.filter_append, List.filter_append, fs_unkeyed]
        rw [seqGo_unkeyed opts fs _ _ hcoh']

/-- Without scanner errors, over a keyed-free store, the dedup-threaded
sequential load produces exactly the first-seen-wins filtering of the
dedup-free sequential load.  The store hypothesis is essential: keyed
entries reconstructed from a cached summary bypass the seen-key set, so
over an arbitrary store the threaded load can retain a duplicate the
filtering would drop. -/
theorem seqGo_some_entries_eq (opts : LoadOpts) :
    ∀ (files : List FileData) (st : Option Store) (s : DSet),
      (∀ fd ∈ files, fd.statInfo = none → fd.openOk = false) →
      (∀ fd ∈ files, fd.scanErr = false) →
      StoreKeyedFree st →
      (seqGo opts st (some s) files).entries
        = (filterSeen s (seqGo opts st none files).entries).1
  | [], st, s, _, _, _ => by simp [seqGo, CoreOut.empty, filterSeen]
  | fd :: fs, st, s, hcoh, hscan, hkf => by
    obtain ⟨R1, R2, R3, R4, R5, R6H, R6F, R6P, R6G, R7, R7b, R8, R9, R10, R11⟩ :=
      pcad_step opts fd (hcoh fd (List.mem_cons_self _ _)) st st rfl rfl (some s)
    obtain ⟨_, _, _, _, N5, _, _, _, _, _, _, _, _, _, _⟩ :=
      pcad_step opts fd (hcoh fd (List.mem_cons_self _ _)) st st rfl rfl none
    have hcoh' : ∀ fd' ∈ fs, fd'.statInfo = none → fd'.openOk = false :=
      fun fd' h => hcoh fd' (List.mem_cons_of_mem _ h)
    have hscan' : ∀ fd' ∈ fs, fd'.scanErr = false :=
      fun fd' h => hscan fd' (List.mem_cons_of_mem _ h)
    have hkf' : StoreKeyedFree (processSingleFileWithCacheAndDedup opts st none fd).2.1 :=
      skf_preserved opts st none fd (hcoh fd (List.mem_cons_self _ _)) hkf
    have hst9 : (processSingleFileWithCacheAndDedup opts st (some s) fd).2.1
        = (processSingleFileWithCacheAndDedup opts st none fd).2.1 := R9 rfl
    have hnone2 : (processSingleFileWithCacheAndDedup opts st none fd).2.2 = none :=
      (N5 rfl).2
    cases herr : (processSingleFileWithCacheAndDedup opts st (some s) fd).1.error with
    | some e =>
      have herr0 : (processSingleFileWithCacheAndDedup opts st none fd).1.error = some e :=
        R3.symm.trans herr
      have hescan : e ≠ PErr.scanError := by
        intro hcontr
        subst hcontr
        have := R10 herr
        rw [hscan fd (List.mem_cons_self _ _)] at this
        exact Bool.noConfusion this
      have hfcF : (processSingleFileWithCacheAndDedup opts st (some s) fd).1.fromCache
          = false := by
        cases hb : (processSingleFileWithCacheAndDedup opts st (some s) fd).1.fromCache
        · rfl
        · rw [R6F hb] at herr
          exact Option.noConfusion herr
      have hnot : (processSingleFileWithCacheAndDedup opts st (some s) fd).1.error
          ≠ some PErr.scanError := by
        rw [herr]
        intro hcontr
        injection hcontr with hcontr
        exact hescan hcontr
      have hd' : (processSingleFileWithCacheAndDedup opts st (some s) fd).2.2 = some s := by
        have hdd := (R6P s rfl hfcF).2 hnot
        rw [hdd, (R11 (by rw [herr]; rfl)).2]
        rfl
      simp only [seqGo, herr, herr0, hd', hnone2, hst9]
      exact seqGo_some_entries_eq opts fs _ s hcoh' hscan' hkf'
    | none =>
      have herr0 : (processSingleFileWithCacheAndDedup opts st none fd).1.error = none :=
        R3.symm.trans herr
      by_cases hfc : (processSingleFileWithCacheAndDedup opts st (some s) fd).1.fromCache
          = true
      · obtain ⟨hent, hset⟩ := R6H hfc
        have hfc0 : (processSingleFileWithCacheAndDedup opts st none fd).1.fromCache
            = true := R1.symm.trans hfc
        have hunk := pcad_hit_unkeyed opts st none fd hkf hfc0
        have hfs1 : (filterSeen s
            (processSingleFileWithCacheAndDedup opts st none fd).1.entries).1
              = (processSingleFileWithCacheAndDedup opts st none fd).1.entries := by
          rw [fs_all_unkeyed _ s hunk]
        have hfs2 : (filterSeen s
            (processSingleFileWithCacheAndDedup opts st none fd).1.entries).2 = s := by
          rw [fs_all_unkeyed _ s hunk]
        simp only [seqGo, herr, herr0, hset, hnone2, hst9]
        rw [hent, fs_append, hfs1, hfs2]
        rw [seqGo_some_entries_eq opts fs _ s hcoh' hscan' hkf']
      · have hfcF : (processSingleFileWithCacheAndDedup opts st (some s) fd).1.fromCache
            = false := by
          cases hb : (processSingleFileWithCacheAndDedup opts st (some s) fd).1.fromCache
          · rfl
          · exact absurd hb hfc
        obtain ⟨h61, h62⟩ := R6P s rfl hfcF
        have hs2 : (processSingleFileWithCacheAndDedup opts st (some s) fd).2.2
            = some (filterSeen s
                (processSingleFileWithCacheAndDedup opts st none fd).1.entries).2 :=
          h62 (by rw [herr]; exact fun hcontr => Option.noConfusion hcontr)
        simp only [seqGo, herr, herr0, hs2, hnone2, hst9]
        rw [h61, fs_append]
        rw [seqGo_some_entries_eq opts fs _ _ hcoh' hscan' hkf']

theorem keys_nodup_count (l : List UsageEntry)
    (h : ((l.filter keyedB).map dedupKey).Nodup) (k : String) :
    (l.filter (fun e => keyedB e && (dedupKey e == k))).length ≤ 1 := by
  induction l with
  | nil => simp
  | cons e es ih =>
    by_cases hk : keyedB e
    · rw [List.filter_cons_of_pos hk, List.map_cons] at h
      obtain ⟨hne, hrest⟩ := List.nodup_cons.mp h
      by_cases hek : dedupKey e = k
      · have hzero : es.filter (fun e' => keyedB e' && (dedupKey e' == k)) = [] := by
          rw [List.filter_eq_nil_iff]
          intro a ha hpa
          simp only [Bool.and_eq_true, beq_iff_eq] at hpa
          apply hne
          rw [List.mem_map]
          exact ⟨a, List.mem_filter.mpr ⟨ha, hpa.1⟩, hpa.2.trans hek.symm⟩
        have hbeq : (dedupKey e == k) = true := beq_iff_eq.mpr hek
        simp [List.filter_cons, hk, hbeq, hzero]
      · have hbeq : (dedupKey e == k) = false := beq_eq_false_iff_ne.mpr hek
        simp only [List.filter_cons, hk, hbeq, Bool.and_false, Bool.true_and,
          Bool.false_eq_true, if_neg, not_false_eq_true]
        exact ih hrest
    · have hkf : keyedB e = false := by
        cases hkk : keyedB e
        · rfl
        · exact absurd hkk hk
      rw [List.filter_cons_of_neg (by simp [hkf])] at h
      simp only [List.filter_cons, hkf, Bool.false_and, Bool.false_eq_true, if_neg,
        not_false_eq_true]
      exact ih h

/-! ### Session-window tracker facts -/

theorem isMarked_markFile (p : String) (mt : Int) (q : String) :
    ∀ (acc : List (String × FileTracker)),
      isMarked (markFile acc p mt) q = if q = p then true else isMarked acc q
  | [] => by
    by_cases hq : q = p
    · simp [markFile, isMarked, List.find?, hq]
    · simp [markFile, isMarked, List.find?, beq_eq_false_iff_ne.mpr (Ne.symm hq), hq]
  | pt :: rest => by
    by_cases hpt : pt.1 = p
    · rw [markFile]
      simp only [beq_iff_eq.mpr hpt, if_pos]
      by_cases hq : q = p
      · subst hq
        simp [isMarked, List.find?, beq_iff_eq.mpr hpt]
      · have hne : (pt.1 == q) = false := beq_eq_false_iff_ne.mpr (hpt ▸ Ne.symm hq)
        simp [isMarked, List.find?, hne, hq]
    · rw [markFile]
      have hne : (pt.1 == p) = false := beq_eq_false_iff_ne.mpr hpt
      simp only [hne, Bool.false_eq_true, if_neg, not_false_eq_true]
      by_cases hq : q = pt.1
      · subst hq
        simp [isMarked, List.find?, fun h => hpt h]
      · have hne' : (pt.1 == q) = false := beq_eq_false_iff_ne.mpr (Ne.symm hq)
        simp only [isMarked, List.find?, hne']
        exact isMarked_markFile p mt q rest

theorem isMarked_reset (q : String) :
    ∀ (tracked : List (String × FileTracker)),
      isMarked (tracked.map (fun pt => (pt.1, { pt.2 with inSessionWindow := false }))) q
        = false
  | [] => rfl
  | pt :: rest => by
    by_cases hq : pt.1 = q
    · simp [isMarked, List.find?, beq_iff_eq.mpr hq]
    · simp only [List.map_cons, isMarked, List.find?, beq_eq_false_iff_ne.mpr hq]
      exact isMarked_reset q rest

theorem isMarked_foldMark (activeBlocks : List SessionBlock) (q : String) :
    ∀ (files : List (String × Option Int)) (acc : List (String × FileTracker)),
      isMarked (files.foldl (markStep activeBlocks) acc) q
        = (isMarked acc q ||
            files.any (fun pf => pf.1 == q &&
              match pf.2 with
              | none => false
              | some mt => activeBlocks.any (inWindowB mt)))
  | [], acc => by simp
  | pf :: rest, acc => by
    obtain ⟨p, omt⟩ := pf
    rw [List.foldl_cons, List.any_cons]
    cases omt with
    | none =>
      have hstep : markStep activeBlocks acc (p, none) = acc := rfl
      rw [hstep, isMarked_foldMark activeBlocks q rest acc]
      simp
    | some mt =>
      by_cases hcond : activeBlocks.any (inWindowB mt)
      · have hstep : markStep activeBlocks acc (p, some mt) = markFile acc p mt := by
          simp [markStep, hcond]
        rw [hstep, isMarked_foldMark activeBlocks q rest (markFile acc p mt),
          isMarked_markFile]
        by_cases hq : q = p
        · subst hq
          simp [hcond]
        · have : (p == q) = false := beq_eq_false_iff_ne.mpr (Ne.symm hq)
          simp [hq, this]
      · have hstep : markStep activeBlocks acc (p, some mt) = acc := by
          simp [markStep, hcond]
        rw [hstep, isMarked_foldMark activeBlocks q rest acc]
        have hcond' : activeBlocks.any (inWindowB mt) = false := by
          cases h : activeBlocks.any (inWindowB mt)
          · rfl
          · exact absurd h hcond
        simp [hcond']

/-! ### Watch-mode retry loop evaluation -/

theorem watchGo_ok {R : Type} (o : Nat → Except String R) (cache : Option R)
    (m a : Nat) (delays : List Nat) (r : R) (h : a < m) (hok : o a = .ok r) :
    watchGo o cache m a delays = (.ok r, delays.reverse, some r) := by
  conv_lhs => rw [watchGo]
  rw [dif_pos h, hok]

theorem watchGo_err_mid {R : Type} (o : Nat → Except String R) (cache : Option R)
    (m a : Nat) (delays : List Nat) (e : String) (h : a < m) (h2 : a < m - 1)
    (he : o a = .error e) :
    watchGo o cache m a delays = watchGo o cache m (a + 1) ((100 * 2 ^ a) :: delays) := by
  conv_lhs => rw [watchGo]
  rw [dif_pos h, he]
  dsimp only
  rw [if_pos h2]

theorem watchGo_err_last {R : Type} (o : Nat → Except String R) (cache : Option R)
    (m a : Nat) (delays : List Nat) (e : String) (h : a < m) (h2 : ¬a < m - 1)
    (he : o a = .error e) :
    watchGo o cache m a delays =
      (match cache with
       | some c => (.ok c, delays.reverse, some c)
       | none => (.error ("failed to get usage data after " ++ toString m
           ++ " attempts: " ++ e), delays.reverse, none)) := by
  unfold watchGo
  rw [dif_pos h, he]
  dsimp only
  rw [if_neg h2]

/-! ### Concrete fixtures used by the claim-level theorems -/

/-- A keyed usage entry in the first fixture file. -/
def eDup1 : UsageEntry := ⟨1, "m", "m1", "r1", 2, 0, ""⟩

/-- A second usage entry carrying the same (messageID, requestID) pair. -/
def eDup2 : UsageEntry := ⟨2, "m", "m1", "r1", 3, 0, ""⟩

/-- A file whose scanner fails after a keyed entry was scanned: its entries
are discarded but the shared seen-key set retains the key. -/
def fileScanErr : FileData :=
  ⟨"a", some (0, 0), true, [.record 0 (some eDup1)], true, true⟩

/-- A healthy file carrying a duplicate of `fileScanErr`'s entry. -/
def fileDupB : FileData :=
  ⟨"b", some (0, 0), true, [.record 1 (some eDup2)], false, true⟩

/-- Load options with deduplication enabled (no cutoff, no raw output, no
pricing provider). -/
def dedupOpts : LoadOpts := ⟨none, false, true, none⟩

/-- Load options with deduplication disabled. -/
def noDedupOpts : LoadOpts := ⟨none, false, false, none⟩

/-- A fresh file observed by a watch-mode load. -/
def watchFile : FileData :=
  ⟨"w", some (5, 7), true, [.record 0 (some ⟨1, "m", "x", "y", 2, 0, ""⟩)], false, true⟩

/-- A stale cached summary for path `f`: stored stamp (1, 1). -/
def staleSummary : FileSummary := ⟨"f", 1, 1, false, []⟩

/-- A store holding only the stale summary for `f`. -/
def staleStore : Store := fun p => if p = "f" then some staleSummary else none

/-- The file at path `f` after modification: stat now (2, 1). -/
def modifiedFile : FileData :=
  ⟨"f", some (2, 1), true, [.record 0 (some ⟨1, "m", "x", "y", 2, 0, ""⟩)], false, true⟩

/-- A valid cached summary for path `v` with stamp (3, 4) and one stored
entry (identifiers retained, as stored summaries keep the derived entries
byte-identically). -/
def validSummary : FileSummary := ⟨"v", 3, 4, false, [⟨9, "m", "mv", "rv", 1, 1, "v"⟩]⟩

/-- A store holding the valid summary for `v`. -/
def validStore : Store := fun p => if p = "v" then some validSummary else none

/-- The unmodified file at `v`, matching its cached stamp. -/
def hitFile : FileData :=
  ⟨"v", some (3, 4), true, [.record 7 (some ⟨9, "m", "x", "y", 1, 0, "v"⟩)], false, true⟩

/-- Load options requesting raw output (deduplication off). -/
def rawOpts : LoadOpts := ⟨none, true, false, none⟩

/-- A valid cached summary for path `a` whose stored entry retains the
non-empty key `m1:r1` — the normal shape of a summary written by an earlier
load, since summaries store the derived entries byte-identically. -/
def keyedSummary : FileSummary := ⟨"a", 0, 0, false, [eDup1]⟩

/-- A store holding the keyed summary for `a`. -/
def keyedStore : Store := fun p => if p = "a" then some keyedSummary else none

/-- The unmodified file at `a`, matching its cached stamp: served as a cache
hit, its entries reconstructed from the summary without touching the
seen-key set. -/
def fileHitA : FileData := ⟨"a", some (0, 0), true, [], false, true⟩

/-- An active session block running from minute 100 to minute 200. -/
def activeBlock : SessionBlock := ⟨100, 200, true, []⟩

/-- An empty load result (zero entries), as produced by a full load that
found no usage data. -/
def emptyLoadResult : LoadResult := ⟨[], [], [], 0, 0, 0, 0, 0, 0, 0, []⟩

theorem procLines_skip_invalid (c : Option Nat) (i : Bool) (pp : Option PProv)
    (path : String) :
    ∀ (ls₁ ls₂ : List LogLine) (d : Option DSet),
      procLines c i pp path (ls₁ ++ .invalid :: ls₂) d
        = procLines c i pp path (ls₁ ++ ls₂) d
  | [], _, _ => rfl
  | .blank :: ls₁, ls₂, d => procLines_skip_invalid c i pp path ls₁ ls₂ d
  | .invalid :: ls₁, ls₂, d => procLines_skip_invalid c i pp path ls₁ ls₂ d
  | .record raw usage :: ls₁, ls₂, d => by
    simp only [List.cons_append, procLines, List.append_eq]
    cases usage with
    | none =>
      dsimp only
      rw [procLines_skip_invalid c i pp path ls₁ ls₂ d]
    | some e =>
      dsimp only
      by_cases hc : keepCutoff c e.timestamp = false
      · rw [if_pos hc, if_pos hc, procLines_skip_invalid c i pp path ls₁ ls₂ d]
      · rw [if_neg hc, if_neg hc]
        cases d with
        | none =>
          dsimp only
          rw [procLines_skip_invalid c i pp path ls₁ ls₂ none]
        | some s =>
          dsimp only
          by_cases hk : keyedB e
          · rw [if_pos hk, if_pos hk]
            by_cases hmem : dedupKey e ∈ s
            · rw [if_pos hmem, if_pos hmem,
                procLines_skip_invalid c i pp path ls₁ ls₂ (some s)]
            · rw [if_neg hmem, if_neg hmem,
                procLines_skip_invalid c i pp path ls₁ ls₂ (some (dedupKey e :: s))]
          · rw [if_neg hk, if_neg hk, procLines_skip_invalid c i pp path ls₁ ls₂ (some s)]

/-! ### Claim-level theorems -/

/-- C1: in the steady state, a forced-refresh `GetData(true)` attempts the
load up to 3 times, sleeping 100ms after the first failure and 200ms after
the second; an attempt that succeeds returns its result with no error and
publishes it; when all three attempts fail the last published cached result
is returned with no error if one exists, and only with no cached result does
the call return an error. -/
theorem getData_watch_retry {R : Type} (o : Nat → Except String R) (cache : Option R) :
    (∀ r, o 0 = .ok r → getDataWatch o cache = (.ok r, [], some r)) ∧
    (∀ e0 r, o 0 = .error e0 → o 1 = .ok r →
      getDataWatch o cache = (.ok r, [100], some r)) ∧
    (∀ e0 e1 r, o 0 = .error e0 → o 1 = .error e1 → o 2 = .ok r →
      getDataWatch o cache = (.ok r, [100, 200], some r)) ∧
    (∀ e0 e1 e2 c, o 0 = .error e0 → o 1 = .error e1 → o 2 = .error e2 →
      cache = some c → getDataWatch o cache = (.ok c, [100, 200], some c)) ∧
    (∀ e0 e1 e2, o 0 = .error e0 → o 1 = .error e1 → o 2 = .error e2 → cache = none →
      getDataWatch o cache = (.error ("failed to get usage data after " ++ toString 3
        ++ " attempts: " ++ e2), [100, 200], none)) := by
  refine ⟨?_, ?_, ?_, ?_, ?_⟩
  · intro r h0
    rw [getDataWatch, watchGo_ok o cache 3 0 [] r (by norm_num) h0]
    rfl
  · intro e0 r h0 h1
    rw [getDataWatch, watchGo_err_mid o cache 3 0 [] e0 (by norm_num) (by norm_num) h0,
      watchGo_ok o cache 3 1 _ r (by norm_num) h1]
    norm_num
  · intro e0 e1 r h0 h1 h2
    rw [getDataWatch, watchGo_err_mid o cache 3 0 [] e0 (by norm_num) (by norm_num) h0,
      watchGo_err_mid o cache 3 1 _ e1 (by norm_num) (by norm_num) h1,
      watchGo_ok o cache 3 2 _ r (by norm_num) h2]
    norm_num
  · intro e0 e1 e2 c h0 h1 h2 hc
    subst hc
    rw [getDataWatch, watchGo_err_mid o (some c) 3 0 [] e0 (by norm_num) (by norm_num) h0,
      watchGo_err_mid o (some c) 3 1 _ e1 (by norm_num) (by norm_num) h1,
      watchGo_err_last o (some c) 3 2 _ e2 (by norm_num) (by norm_num) h2]
    norm_num
  · intro e0 e1 e2 h0 h1 h2 hc
    subst hc
    rw [getDataWatch, watchGo_err_mid o none 3 0 [] e0 (by norm_num) (by norm_num) h0,
      watchGo_err_mid o none 3 1 _ e1 (by norm_num) (by norm_num) h1,
      watchGo_err_last o none 3 2 _ e2 (by norm_num) (by norm_num) h2]
    norm_num

theorem getData_watch_retry_witness :
    getDataWatch (fun n => if n = 0 then (.error "boom" : Except String Nat) else .ok 37) none
      = (.ok 37, [100], some 37) :=
  (getData_watch_retry
    (fun n => if n = 0 then (.error "boom" : Except String Nat) else .ok 37) none).2.1
    "boom" 37 rfl rfl

/-- C2: evaluation at the failing input — a steady-state watch-mode load with
a configured summary store and one fresh (uncached) file holding one usage
entry batch-writes that file's newly built summary to the store, so the
watch-mode load is not read-only on the summary cache. -/
theorem watch_mode_writes_summary_cache :
    (analyzeUsageWatchMode (fun _ => []) (fun _ => []) none false none
      (some (fun _ => none)) [watchFile]).2
      = [⟨"w", 5, 7, false, [⟨1, "m", "x", "y", 2, 2, "w"⟩]⟩] := by decide

/-- C4: the entry list returned by `LoadUsageEntries` is sorted non-decreasing
by timestamp for every input, whatever the file order and whichever branch
(sequential or concurrent) produced the merged list. -/
theorem load_entries_sorted (opts : LoadOpts) (store : Option Store) (files : List FileData) :
    ((loadUsageEntries opts store files).entries).Pairwise tsLe :=
  pairwise_sortByTimestamp _

/-- C5: evaluation at the failing input — with a store configured, a stored
summary that exists but whose (modTime, size) stamp no longer matches is
invalidated, yet the subsequent classification probe re-queries the store,
finds nothing (the summary was just removed), and classifies the miss
`new_file` instead of the claimed `modified_file`. -/
theorem invalidated_summary_classified_new_file :
    staleStore "f" = some staleSummary ∧
    staleSummary.isExpired 2 1 = true ∧
    modifiedFile.statInfo = some (2, 1) ∧
    modifiedFile.hasAssistant = true ∧
    (processSingleFileWithCacheAndDedup dedupOpts (some staleStore) none
      modifiedFile).1.fromCache = false ∧
    (processSingleFileWithCacheAndDedup dedupOpts (some staleStore) none
      modifiedFile).1.missReason = "new_file" := by decide

/-- C6: the per-file processor fails exactly on I/O-level failures — the file
cannot be opened or the scanner reports an error — and a line that fails
JSON parsing is skipped entirely (removing it changes nothing) and never
makes the file fail; in every error case the processor returns zero entries
and zero raw records. -/
theorem per_file_errors_only_io (c : Option Nat) (i : Bool) (pp : Option PProv)
    (d : Option DSet) (fd : FileData) :
    ((processSingleFileWithDedup c i pp d fd).1.2.2.isSome = (!fd.openOk || fd.scanErr)) ∧
    ((processSingleFileWithDedup c i pp d fd).1.2.2.isSome = true →
      (processSingleFileWithDedup c i pp d fd).1.1 = [] ∧
      (processSingleFileWithDedup c i pp d fd).1.2.1 = []) ∧
    (∀ ls₁ ls₂, fd.lines = ls₁ ++ LogLine.invalid :: ls₂ →
      processSingleFileWithDedup c i pp d fd
        = processSingleFileWithDedup c i pp d { fd with lines := ls₁ ++ ls₂ }) := by
  refine ⟨pf_err_iff c i pp d fd, pf_err_nil c i pp d fd, ?_⟩
  intro ls₁ ls₂ hlines
  unfold processSingleFileWithDedup
  rw [hlines]
  dsimp only
  rw [procLines_skip_invalid]

theorem per_file_errors_only_io_witness :
    (processSingleFileWithDedup none false none none fileScanErr).1.1 = [] ∧
    (processSingleFileWithDedup none false none none fileScanErr).1.2.1 = [] :=
  (per_file_errors_only_io none false none none fileScanErr).2.1 (by decide)

/-- C9: a full load that yields zero usage entries is fatal for that load
attempt — `processUsageData` returns an error and no analysis result
whenever the loaded entry list is empty. -/
theorem empty_load_is_fatal (transform : List UsageEntry → List SessionBlock)
    (detect : List Nat → List Int) (lr : LoadResult) (h : lr.entries = []) :
    processUsageData transform detect lr = .error "no usage entries found" := by
  unfold processUsageData
  rw [h]
  rfl

theorem empty_load_is_fatal_witness :
    processUsageData (fun _ => []) (fun _ => []) emptyLoadResult
      = .error "no usage entries found" :=
  empty_load_is_fatal (fun _ => []) (fun _ => []) emptyLoadResult rfl

/-- C10: whenever a file is served from a valid cached summary (the per-file
result is a cache hit), its raw-records list is empty — even when raw output
was requested — since raw records are only produced by a full parse. -/
theorem cache_hit_serves_no_raw (opts : LoadOpts) (store : Option Store) (d : Option DSet)
    (fd : FileData)
    (h : (processSingleFileWithCacheAndDedup opts store d fd).1.fromCache = true) :
    (processSingleFileWithCacheAndDedup opts store d fd).1.raws = [] := by
  revert h
  unfold processSingleFileWithCacheAndDedup
  cases store with
  | none =>
    intro h
    simp at h
  | some a =>
    cases hstat : fd.statInfo with
    | none =>
      intro h
      simp at h
    | some msz =>
      obtain ⟨mt, sz⟩ := msz
      dsimp only
      cases hsum : a fd.path with
      | none =>
        dsimp only
        intro h
        rw [pac_fromCache_false] at h
        exact Bool.noConfusion h
      | some cs =>
        dsimp only
        by_cases hexp : cs.isExpired mt sz
        · rw [if_pos hexp]
          intro h
          rw [pac_fromCache_false] at h
          exact Bool.noConfusion h
        · rw [if_neg hexp]
          by_cases hnoa : cs.hasNoAssistantMessages
          · rw [if_pos hnoa]
            intro _
            rfl
          · rw [if_neg hnoa]
            intro _
            rfl

theorem cache_hit_serves_no_raw_witness :
    (processSingleFileWithCacheAndDedup rawOpts (some validStore) none hitFile).1.raws = [] :=
  cache_hit_serves_no_raw rawOpts (some validStore) none hitFile (by decide)

theorem pcad_enableDedup_irrel (opts : LoadOpts) (b : Bool) (st : Option Store)
    (d : Option DSet) (fd : FileData) :
    processSingleFileWithCacheAndDedup { opts with enableDedup := b } st d fd
      = processSingleFileWithCacheAndDedup opts st d fd := rfl

theorem seqGo_enableDedup_irrel (opts : LoadOpts) (b : Bool) :
    ∀ (files : List FileData) (st : Option Store) (d : Option DSet),
      seqGo { opts with enableDedup := b } st d files = seqGo opts st d files
  | [], _, _ => rfl
  | fd :: fs, st, d => by
    simp only [seqGo, pcad_enableDedup_irrel opts b, seqGo_enableDedup_irrel opts b fs]

/-- C3 counterexample, two failures of "exactly one entry per non-empty
(messageID, requestID) pair survives".  Zero survivors: both files carry an
entry with the pair `m1:r1`, yet with deduplication enabled no entry with
that pair survives the load — the first file's scanner error discards its
entries after they have already claimed the key in the shared seen-key set,
so the second file's copy is dropped as a duplicate (with deduplication
disabled exactly one copy loads, showing the pair exists).  Two survivors:
a valid cached summary holding an entry with the pair is served as a cache
hit whose reconstructed entries bypass the seen-key set entirely, so both
the reconstructed entry and a parsed duplicate from a second file survive. -/
theorem dedup_zero_survivors_counterexample :
    (fileScanErr.lines = [LogLine.record 0 (some eDup1)] ∧
     fileDupB.lines = [LogLine.record 1 (some eDup2)] ∧
     eDup1.messageID = eDup2.messageID ∧ eDup1.requestID = eDup2.requestID ∧
     eDup1.messageID ≠ "" ∧ eDup1.requestID ≠ "") ∧
    (((loadUsageEntries dedupOpts none [fileScanErr, fileDupB]).entries.filter
      (fun e => keyedB e && (dedupKey e == "m1:r1"))).length = 0 ∧
    ((loadUsageEntries noDedupOpts none [fileScanErr, fileDupB]).entries.filter
      (fun e => keyedB e && (dedupKey e == "m1:r1"))).length = 1) ∧
    (keyedStore "a" = some keyedSummary ∧ keyedSummary.entryData = [eDup1] ∧
    ((loadUsageEntries dedupOpts (some keyedStore) [fileHitA, fileDupB]).entries.filter
      (fun e => keyedB e && (dedupKey e == "m1:r1"))).length = 2) := by decide

/-- C3 (amended): in the sequential load with deduplication enabled (and
stat/open failures coherent), (1) entries reconstructed from a valid cached
summary bypass deduplication entirely — a cache hit returns them unfiltered
and leaves the cycle's seen-key set untouched, so a keyed cached entry and a
parsed duplicate both survive; (2) restricted to stores whose summaries hold
only entries missing an identifier, at most one entry per concatenated key
`messageID:requestID` survives; (3) entries missing either ID are never
dropped by deduplication — they match the dedup-disabled load exactly, over
any store; (4) over such a store, when additionally no file fails with a
scanner error, for every key the surviving entries are precisely the
first-encountered carrier of that key in file-iteration order; and (5) on
loads of at most 10 files the public loader returns exactly this sequential
result, timestamp-sorted.  The seen-key set is created fresh (empty) for the
load and is no part of the result. -/
theorem dedup_amended (opts : LoadOpts) (store : Option Store) (files : List FileData)
    (hdedup : opts.enableDedup = true)
    (hcoh : ∀ fd ∈ files, fd.statInfo = none → fd.openOk = false) :
    (∀ fd ∈ files, ∀ s,
      (processSingleFileWithCacheAndDedup opts store (some s) fd).1.fromCache = true →
      (processSingleFileWithCacheAndDedup opts store (some s) fd).1.entries
          = (processSingleFileWithCacheAndDedup opts store none fd).1.entries ∧
      (processSingleFileWithCacheAndDedup opts store (some s) fd).2.2 = some s) ∧
    (StoreKeyedFree store →
      ∀ k, ((seqLoadCore opts store files).entries.filter
        (fun e => keyedB e && (dedupKey e == k))).length ≤ 1) ∧
    ((seqLoadCore opts store files).entries.filter (fun e => !keyedB e)
      = (seqLoadCore { opts with enableDedup := false } store files).entries.filter
          (fun e => !keyedB e)) ∧
    (StoreKeyedFree store → (∀ fd ∈ files, fd.scanErr = false) → ∀ k,
      (seqLoadCore opts store files).entries.filter (fun e => keyedB e && (dedupKey e == k))
        = ((seqLoadCore { opts with enableDedup := false } store files).entries.filter
            (fun e => keyedB e && (dedupKey e == k))).take 1) ∧
    (files.length ≤ 10 →
      (loadUsageEntries opts store files).entries
        = sortByTimestamp ((seqLoadCore opts store files).entries)) := by
  have hseq : seqLoadCore opts store files = seqGo opts store (some []) files := by
    unfold seqLoadCore
    rw [hdedup]
    rfl
  have hseq0 : seqLoadCore { opts with enableDedup := false } store files
      = seqGo opts store none files := seqGo_enableDedup_irrel opts false files store none
  refine ⟨?_, ?_, ?_, ?_, ?_⟩
  · intro fd hfd s
    obtain ⟨_, _, _, _, _, R6H, _, _, _, _, _, _, _, _, _⟩ :=
      pcad_step opts fd (hcoh fd hfd) store store rfl rfl (some s)
    exact R6H
  · intro hkf k
    rw [hseq]
    exact keys_nodup_count _ (seqGo_keys_nodup opts files store [] hcoh hkf).1 k
  · rw [hseq, hseq0]
    exact seqGo_unkeyed opts files store [] hcoh
  · intro hkf hscan k
    rw [hseq, hseq0, seqGo_some_entries_eq opts files store [] hcoh hscan hkf,
      fs_key_take1]
    simp
  · intro hlen
    unfold loadUsageEntries
    dsimp only
    rw [if_neg (by omega)]

theorem dedup_amended_witness :
    ((seqLoadCore dedupOpts none [fileDupB]).entries.filter
      (fun e => keyedB e && (dedupKey e == "m1:r1"))).length ≤ 1 :=
  (dedup_amended dedupOpts none [fileDupB] rfl (by decide)).2.1
    (fun _ _ h => Option.noConfusion h) "m1:r1"

/-- C8 counterexample, two divergences between the branches with
deduplication enabled.  First: a scanner-failing file carrying a keyed entry
followed by a healthy duplicate — the sequential branch loads no entries
(the failing file poisons the shared seen-key set) while the concurrent
branch, whose failed per-file results carry no entries into the merge-time
filter, loads the duplicate.  Second: a valid cached summary holding a keyed
entry plus a second file parsing a duplicate — the sequential branch never
passes cache-hit entries through deduplication, so both survive, while the
concurrent merge-time filter sees the reconstructed entry first and drops
the parsed duplicate. -/
theorem seq_conc_differ_counterexample :
    ((seqLoadCore dedupOpts none [fileScanErr, fileDupB]).entries = [] ∧
    (concLoadCore dedupOpts none [fileScanErr, fileDupB]).entries
      = [⟨2, "m", "m1", "r1", 3, 3, "b"⟩]) ∧
    ((seqLoadCore dedupOpts (some keyedStore) [fileHitA, fileDupB]).entries
      = [eDup1, ⟨2, "m", "m1", "r1", 3, 3, "b"⟩] ∧
    (concLoadCore dedupOpts (some keyedStore) [fileHitA, fileDupB]).entries
      = [eDup1]) := by decide

/-- C8 (amended): with pairwise-distinct file paths, coherent stat/open
failures, a keyed-free store (every cached summary's entries miss an
identifier — cache hits reconstruct keyed entries byte-identically, and
those bypass the sequential seen-key set while the concurrent merge-time
filter drops their duplicates, so over arbitrary stores the branches
diverge), and — when deduplication is enabled — no scanner errors, the
sequential and concurrent branches produce identical observable results:
the same merged entry list, raw records, processing errors, and cache
hit/miss classification (counters and miss-reason histogram). -/
theorem seq_conc_same_observables (opts : LoadOpts) (store : Option Store)
    (files : List FileData)
    (hnodup : (files.map FileData.path).Nodup)
    (hcoh : ∀ fd ∈ files, fd.statInfo = none → fd.openOk = false)
    (hkf : StoreKeyedFree store)
    (hscan : opts.enableDedup = true → ∀ fd ∈ files, fd.scanErr = false) :
    (seqLoadCore opts store files).entries = (concLoadCore opts store files).entries ∧
    (seqLoadCore opts store files).raws = (concLoadCore opts store files).raws ∧
    (seqLoadCore opts store files).errors = (concLoadCore opts store files).errors ∧
    (seqLoadCore opts store files).hits = (concLoadCore opts store files).hits ∧
    (seqLoadCore opts store files).misses = (concLoadCore opts store files).misses ∧
    (seqLoadCore opts store files).missNew = (concLoadCore opts store files).missNew ∧
    (seqLoadCore opts store files).missModified
      = (concLoadCore opts store files).missModified ∧
    (seqLoadCore opts store files).missNoAssistant
      = (concLoadCore opts store files).missNoAssistant ∧
    (seqLoadCore opts store files).missOther = (concLoadCore opts store files).missOther := by
  by_cases hd : opts.enableDedup
  · have key := seqGo_eq_conc opts files store store (some []) rfl (fun _ _ => rfl)
      hnodup hcoh hkf (fun _ => hscan hd)
    unfold seqLoadCore concLoadCore
    rw [hd]
    exact key
  · have hd' : opts.enableDedup = false := by
      cases hh : opts.enableDedup
      · rfl
      · exact absurd hh hd
    have key := seqGo_eq_conc opts files store store none rfl (fun _ _ => rfl)
      hnodup hcoh hkf (fun hcontr => Bool.noConfusion hcontr)
    unfold seqLoadCore concLoadCore
    rw [hd']
    exact key

theorem seq_conc_same_observables_witness :
    (seqLoadCore dedupOpts none [fileDupB]).entries
      = (concLoadCore dedupOpts none [fileDupB]).entries :=
  (seq_conc_same_observables dedupOpts none [fileDupB] (by decide) (by decide)
    (fun _ _ h => Option.noConfusion h) (fun _ => by decide)).1

/-- C7 counterexample: a file whose modification time equals an active
block's start time lies inside the claimed closed interval
`[blockStart, blockEnd + 30min]`, yet the scan does not mark it in-window —
the code compares with strict `After`/`Before`. -/
theorem boundary_modtime_not_marked :
    activeBlock.isActive = true ∧
    activeBlock.startTime ≤ 100 ∧ (100 : Int) ≤ activeBlock.endTime + 30 ∧
    isMarked (updateSessionWindowFiles 0 [activeBlock] [] [("f", some 100)]) "f"
      = false := by decide

/-- C7 (amended): after the session-window recomputation — which first clears
every tracked file's in-window flag — a path is marked in-window iff it was
discovered with a successful stat and its modification time lies strictly
inside `(blockStart, blockEnd + 30min)` for some block that is active
(is-active flag set, or ended less than 5 hours = 300 minutes ago); in
particular a file modified 31 minutes after an active block's end, or
exactly at either endpoint, is not marked. -/
theorem session_window_marking (now : Int) (blocks : List SessionBlock)
    (tracked : List (String × FileTracker)) (files : List (String × Option Int))
    (q : String) :
    isMarked (updateSessionWindowFiles now blocks tracked files) q = true ↔
      ∃ mt : Int, (q, some mt) ∈ files ∧ ∃ b ∈ blocks,
        (b.isActive = true ∨ now - b.endTime < 300) ∧
        b.startTime < mt ∧ mt < b.endTime + 30 := by
  simp only [updateSessionWindowFiles]
  rw [isMarked_foldMark, isMarked_reset, Bool.false_or, List.any_eq_true]
  constructor
  · rintro ⟨⟨p, omt⟩, hmem, hcond⟩
    cases omt with
    | none => simp at hcond
    | some mt =>
      simp only [Bool.and_eq_true, beq_iff_eq] at hcond
      obtain ⟨hpq, hin⟩ := hcond
      subst hpq
      rw [List.any_eq_true] at hin
      obtain ⟨b, hbmem, hbw⟩ := hin
      rw [List.mem_filter] at hbmem
      have hact : b.isActive = true ∨ now - b.endTime < 300 := by
        have := hbmem.2
        simp only [blockActive, Bool.or_eq_true, decide_eq_true_eq] at this
        exact this
      have hwin : b.startTime < mt ∧ mt < b.endTime + 30 := by
        simp only [inWindowB, Bool.and_eq_true, decide_eq_true_eq] at hbw
        exact hbw
      exact ⟨mt, hmem, b, hbmem.1, hact, hwin.1, hwin.2⟩
  · rintro ⟨mt, hmem, b, hbmem, hact, h1, h2⟩
    refine ⟨(q, some mt), hmem, ?_⟩
    simp only [beq_self_eq_true, Bool.true_and]
    rw [List.any_eq_true]
    refine ⟨b, List.mem_filter.mpr ⟨hbmem, ?_⟩, ?_⟩
    · simp only [blockActive, Bool.or_eq_true, decide_eq_true_eq]
      exact hact
    · simp only [inWindowB, Bool.and_eq_true, decide_eq_true_eq]
      exact ⟨h1, h2⟩

end ClaudeCat
